import Mathlib

/-!
Verification development for a small imperative language over bitwise-logic
expressions on binary-encoded naturals.  The repository holds two ~identical
recursive-descent parsers built on a plex scanner:

* `runner.py`  — recognizer and single-pass evaluator (symbol table, printing);
* `scanner.py` — recognizer only.

Both are shallowly embedded below.  The external plex scanner is modelled by
its contract: the parser consumes a sequence of classified tokens
(kind, lexeme, position), and a position where the scanner would raise
`PlexError` is a distinguished element of that sequence.  Parser procedures
are fuel-indexed (structurally recursive) so that every definition is
executable; running out of fuel is the distinguished result `PRes.fuel`,
which never occurs in any behaviour the theorems talk about.
-/

/-- Token kinds of the lexicon in `create_scanner` (both files, identical):
the keywords, the single-character literals, binary literals and identifiers.
End-of-input is represented by `Option.none` in the lookahead. -/
inductive Kind where
  | kand
  | kor
  | kxor
  | keq
  | kprint
  | klp
  | krp
  | kbin
  | kid
deriving DecidableEq, Repr

/-- The python token-kind strings, as stored in `self.la` and printed by
`'found {} instead of {}'.format(...)`. -/
def kindStr : Kind → String
  | .kand => "and"
  | .kor => "or"
  | .kxor => "xor"
  | .keq => "="
  | .kprint => "print"
  | .klp => "("
  | .krp => ")"
  | .kbin => "bin"
  | .kid => "id"

/-- `str(self.la)`: the kind string, or the string `None` at end of input. -/
def laStr : Option Kind → String
  | none => "None"
  | some k => kindStr k

/-- A token produced by the scanner: kind, matched text, and the scanner
position `(line, col)` that `self.position()` reports while this token is the
most recently read one (plex's column is 0-based). -/
structure Token where
  kind : Kind
  lexeme : String
  line : Nat
  col : Nat
deriving DecidableEq, Repr

/-- One step of the scanner contract: either the next token, or a lexical
failure (`plex.errors.PlexError`) at a given position. -/
inductive TokRes where
  | tok (t : Token)
  | fail (line col : Nat)
deriving DecidableEq, Repr

/-- The lazily produced token sequence of one run; the end of the list is
end-of-input (`scanner.read()` returning `(None, None)`). -/
abbrev TokSeq := List TokRes

/-- Errors that abort a run: `plex.errors.PlexError` from the scanner, and
`ParseError msg` raised by the parser procedures. -/
inductive Err where
  | scan
  | parse (msg : String)
deriving DecidableEq, Repr

/-- The `ParseError` message raised by `atom` in `runner.py` for an identifier
with no prior assignment (the spec's UndefinedVariable error). -/
def uvMsg : String := "in atom: unrecognized variable name"

/-- The mutable state of `MyParser` in `runner.py`: lookahead kind `self.la`,
matched text `self.val`, the not-yet-read remainder of the token sequence,
`self.vars`, the lines printed so far, and the scanner position reported by
`self.position()`.  `scanner.py`'s parser object simply never touches
`vars`/`out`. -/
structure PState where
  la : Option Kind
  val : String
  ts : TokSeq
  vars : List (String × Nat)
  out : List String
  line : Nat
  col : Nat
deriving DecidableEq, Repr

/-- Result of a parsing procedure: normal return with the state at return
time, a raised error with the state at raise time (python exceptions leave
already-performed side effects in place), or fuel exhaustion (a modelling
artifact only). -/
inductive PRes (α : Type) where
  | ok (s : PState) (v : α)
  | err (s : PState) (e : Err)
  | fuel
deriving DecidableEq, Repr

/-- Sequencing of procedure calls: an error propagates unchanged to the
caller, like a python exception. -/
def PRes.bind {α β : Type} : PRes α → (PState → α → PRes β) → PRes β
  | .ok s v, g => g s v
  | .err s e, _ => .err s e
  | .fuel, _ => .fuel

/-- Python dict lookup `x in self.vars` / `self.vars[x]`, on an association
list. -/
def lookupVar : List (String × Nat) → String → Option Nat
  | [], _ => none
  | (k, v) :: r, x => if k = x then some v else lookupVar r x

/-- Python dict update `self.vars[x] = v`. -/
def setVar : List (String × Nat) → String → Nat → List (String × Nat)
  | [], x, v => [(x, v)]
  | (k, w) :: r, x, v => if k = x then (k, v) :: r else (k, w) :: setVar r x v

/-- Value of one binary digit character. -/
def bitVal (c : Char) : Nat := if c = '1' then 1 else 0

/-- `int(s, 2)` on a string of binary digits: most-significant-first
accumulation. -/
def binVal (s : String) : Nat := s.data.foldl (fun a c => 2 * a + bitVal c) 0

/-- The binary digits of `n`, least significant first, as characters; the
fuel argument (any bound with `n ≤ f`) makes the recursion structural. -/
def binDigsF : Nat → Nat → List Char
  | _, 0 => []
  | 0, _ => []
  | f+1, n+1 => (if (n+1) % 2 = 1 then '1' else '0') :: binDigsF f ((n+1) / 2)

/-- `format(v, 'b')`: the minimal binary digit string of `v`, and the single
digit 0 for the value zero. -/
def natToBin (n : Nat) : String :=
  if n = 0 then "0" else String.mk (binDigsF n n).reverse

/-- `self.la, self.val = self.next_token()` together with the scanner's
position bookkeeping: load the next token (or end-of-input) into the
lookahead, or raise the scanner's lexical error, leaving the lookahead
untouched. -/
def nextToken (s : PState) : PRes Unit :=
  match s.ts with
  | [] => .ok { s with la := none, val := "" } ()
  | .tok t :: rest =>
      .ok { s with la := some t.kind, val := t.lexeme, ts := rest, line := t.line, col := t.col } ()
  | .fail l c :: _ => .err { s with line := l, col := c } .scan

/-- `MyParser.match` (identical in both files): consume the expected token and
acquire a new lookahead, or raise `ParseError('found {} instead of {}')`
leaving the whole parser state exactly as it was. -/
def pmatch (k : Kind) (s : PState) : PRes Unit :=
  if s.la = some k then nextToken s
  else .err s (.parse (("found ") ++ laStr s.la ++ (" instead of ") ++ kindStr k))

/-- `runner.py` `atom`: parenthesized expression, binary literal (converted
with `int(self.val, 2)` before the match), or identifier looked up in
`self.vars` (raising the undefined-variable `ParseError` when absent). -/
def atomBody (exprP : PState → PRes Nat) (s : PState) : PRes Nat :=
  if s.la = some Kind.klp then
    (pmatch .klp s).bind fun s1 _ =>
    (exprP s1).bind fun s2 v =>
    (pmatch .krp s2).bind fun s3 _ =>
    .ok s3 v
  else if s.la = some Kind.kid then
    let x := s.val
    (pmatch .kid s).bind fun s1 _ =>
    match lookupVar s1.vars x with
    | some v => .ok s1 v
    | none => .err s1 (.parse uvMsg)
  else if s.la = some Kind.kbin then
    let v := binVal s.val
    (pmatch .kbin s).bind fun s1 _ =>
    .ok s1 v
  else .err s (.parse ("in atom: \"(\", \"id\" or \"bin\" expected"))

/-- `runner.py` `atom_tail`: fold in `and` (python `&`), combining the
inherited left operand with the full right-recursive result; empty
alternative on the FOLLOW set. -/
def atom_tailBody (atomP : PState → PRes Nat) (atom_tailP : Nat → PState → PRes Nat)
    (w : Nat) (s : PState) : PRes Nat :=
  if s.la = some Kind.kand then
    (pmatch .kand s).bind fun s1 _ =>
    (atomP s1).bind fun s2 a =>
    (atom_tailP a s2).bind fun s3 t =>
    .ok s3 (w &&& t)
  else if s.la = some Kind.krp ∨ s.la = some Kind.kor ∨ s.la = some Kind.kxor ∨
      s.la = some Kind.kid ∨ s.la = some Kind.kprint ∨ s.la = none then
    .ok s w
  else
    .err s (.parse ("in atom_tail: \"and\", \")\", \"or\", \"xor\", \"id\" or \"print\" expected"))

/-- `runner.py` `factor`: `Atom Atom_tail`. -/
def factorBody (atomP : PState → PRes Nat) (atom_tailP : Nat → PState → PRes Nat)
    (s : PState) : PRes Nat :=
  if s.la = some Kind.klp ∨ s.la = some Kind.kid ∨ s.la = some Kind.kbin then
    (atomP s).bind fun s1 v =>
    atom_tailP v s1
  else .err s (.parse ("in factor: \"(\", \"id\" or \"bin\" expected"))

/-- `runner.py` `factor_tail`: fold in `or` (python `|`).  Note the raised
message begins `in term_tail:` in the source. -/
def factor_tailBody (factorP : PState → PRes Nat) (factor_tailP : Nat → PState → PRes Nat)
    (w : Nat) (s : PState) : PRes Nat :=
  if s.la = some Kind.kor then
    (pmatch .kor s).bind fun s1 _ =>
    (factorP s1).bind fun s2 a =>
    (factor_tailP a s2).bind fun s3 t =>
    .ok s3 (w ||| t)
  else if s.la = some Kind.krp ∨ s.la = some Kind.kxor ∨ s.la = some Kind.kid ∨
      s.la = some Kind.kprint ∨ s.la = none then
    .ok s w
  else
    .err s (.parse ("in term_tail: \"or\", \")\", \"xor\", \"id\" or \"print\" expected"))

/-- `runner.py` `term`: `Factor Factor_tail`. -/
def termBody (factorP : PState → PRes Nat) (factor_tailP : Nat → PState → PRes Nat)
    (s : PState) : PRes Nat :=
  if s.la = some Kind.klp ∨ s.la = some Kind.kid ∨ s.la = some Kind.kbin then
    (factorP s).bind fun s1 v =>
    factor_tailP v s1
  else .err s (.parse ("in term: \"(\", \"id\" or \"bin\" expected"))

/-- `runner.py` `term_tail`: fold in `xor` (python `^`). -/
def term_tailBody (termP : PState → PRes Nat) (term_tailP : Nat → PState → PRes Nat)
    (w : Nat) (s : PState) : PRes Nat :=
  if s.la = some Kind.kxor then
    (pmatch .kxor s).bind fun s1 _ =>
    (termP s1).bind fun s2 a =>
    (term_tailP a s2).bind fun s3 t =>
    .ok s3 (w ^^^ t)
  else if s.la = some Kind.krp ∨ s.la = some Kind.kid ∨ s.la = some Kind.kprint ∨
      s.la = none then
    .ok s w
  else
    .err s (.parse ("in term_tail: \"xor\", \")\", \"id\" or \"print\" expected"))

/-- `runner.py` `expr`: `Term Term_tail`. -/
def exprBody (termP : PState → PRes Nat) (term_tailP : Nat → PState → PRes Nat)
    (s : PState) : PRes Nat :=
  if s.la = some Kind.klp ∨ s.la = some Kind.kid ∨ s.la = some Kind.kbin then
    (termP s).bind fun s1 v =>
    term_tailP v s1
  else .err s (.parse ("in expr: \"(\", \"id\" or \"bin\" expected"))

/-- `runner.py` `stmt`: assignment `id = Expr` storing into `self.vars`, or
`print Expr` emitting `format(value, 'b')`. -/
def stmtBody (exprP : PState → PRes Nat) (s : PState) : PRes Unit :=
  if s.la = some Kind.kid then
    let x := s.val
    (pmatch .kid s).bind fun s1 _ =>
    (pmatch .keq s1).bind fun s2 _ =>
    (exprP s2).bind fun s3 v =>
    .ok { s3 with vars := setVar s3.vars x v } ()
  else if s.la = some Kind.kprint then
    (pmatch .kprint s).bind fun s1 _ =>
    (exprP s1).bind fun s2 v =>
    .ok { s2 with out := s2.out ++ [natToBin v] } ()
  else .err s (.parse ("in stmt: \"id\" or \"print\" expected"))

/-- `runner.py` `stmt_list`: `Stmt Stmt_list`, or the empty alternative at
end-of-input. -/
def stmt_listBody (stmtP : PState → PRes Unit) (stmt_listP : PState → PRes Unit)
    (s : PState) : PRes Unit :=
  if s.la = some Kind.kid ∨ s.la = some Kind.kprint then
    (stmtP s).bind fun s1 _ =>
    stmt_listP s1
  else if s.la = none then .ok s ()
  else .err s (.parse ("in stmt_list: \"id\" or \"print\" expected"))

mutual

/-- Fuel-indexed `runner.py` `atom`. -/
def atomF : Nat → PState → PRes Nat
  | 0, _ => .fuel
  | f+1, s => atomBody (exprF f) s

/-- Fuel-indexed `runner.py` `atom_tail`. -/
def atom_tailF : Nat → Nat → PState → PRes Nat
  | 0, _, _ => .fuel
  | f+1, w, s => atom_tailBody (atomF f) (atom_tailF f) w s

/-- Fuel-indexed `runner.py` `factor`. -/
def factorF : Nat → PState → PRes Nat
  | 0, _ => .fuel
  | f+1, s => factorBody (atomF f) (atom_tailF f) s

/-- Fuel-indexed `runner.py` `factor_tail`. -/
def factor_tailF : Nat → Nat → PState → PRes Nat
  | 0, _, _ => .fuel
  | f+1, w, s => factor_tailBody (factorF f) (factor_tailF f) w s

/-- Fuel-indexed `runner.py` `term`. -/
def termF : Nat → PState → PRes Nat
  | 0, _ => .fuel
  | f+1, s => termBody (factorF f) (factor_tailF f) s

/-- Fuel-indexed `runner.py` `term_tail`. -/
def term_tailF : Nat → Nat → PState → PRes Nat
  | 0, _, _ => .fuel
  | f+1, w, s => term_tailBody (termF f) (term_tailF f) w s

/-- Fuel-indexed `runner.py` `expr`. -/
def exprF : Nat → PState → PRes Nat
  | 0, _ => .fuel
  | f+1, s => exprBody (termF f) (term_tailF f) s

/-- Fuel-indexed `runner.py` `stmt`. -/
def stmtF : Nat → PState → PRes Unit
  | 0, _ => .fuel
  | f+1, s => stmtBody (exprF f) s

/-- Fuel-indexed `runner.py` `stmt_list`. -/
def stmt_listF : Nat → PState → PRes Unit
  | 0, _ => .fuel
  | f+1, s => stmt_listBody (stmtF f) (stmt_listF f) s

end

/-- The parser state right after `plex.Scanner(lexicon, fp)` is created and
before the initial lookahead is read: empty `self.vars`, nothing printed,
scanner at line 1 column 0. -/
def initState (q : TokSeq) : PState :=
  { la := none, val := "", ts := q, vars := [], out := [], line := 1, col := 0 }

/-- `runner.py` `parse`: create the scanner (acquiring the initial lookahead)
and run `stmt_list`. -/
def parseF (f : Nat) (q : TokSeq) : PRes Unit :=
  (nextToken (initState q)).bind fun s1 _ => stmt_listF f s1

/-- The diagnostic line printed by the top-level driver on `PlexError`:
the internal 0-based column is reported 1-based. -/
def scannerMsg (l c : Nat) : String :=
  ("Scanner Error: at line ") ++ toString l ++ (" char ") ++ toString (c + 1)

/-- The diagnostic line printed by the top-level driver on `ParseError`. -/
def parserMsg (m : String) (l c : Nat) : String :=
  ("Parser Error: ") ++ m ++ (" at line ") ++ toString l ++ (" char ") ++ toString (c + 1)

/-- Everything `runner.py` writes to stdout in one run: the `print` lines in
program order and, if the run aborts, the single diagnostic chosen by the
top-level `try/except`.  `none` only on fuel exhaustion. -/
def run (f : Nat) (q : TokSeq) : Option (List String) :=
  match parseF f q with
  | .fuel => none
  | .ok s _ => some s.out
  | .err s .scan => some (s.out ++ [scannerMsg s.line s.col])
  | .err s (.parse m) => some (s.out ++ [parserMsg m s.line s.col])

namespace Rec

/-- `scanner.py` `atom`: pure recognition; an identifier is merely matched,
with no symbol-table lookup. -/
def atomBody (exprP : PState → PRes Unit) (s : PState) : PRes Unit :=
  if s.la = some Kind.klp then
    (pmatch .klp s).bind fun s1 _ =>
    (exprP s1).bind fun s2 _ =>
    pmatch .krp s2
  else if s.la = some Kind.kid then
    pmatch .kid s
  else if s.la = some Kind.kbin then
    pmatch .kbin s
  else .err s (.parse ("in atom: \"(\", \"id\" or \"bin\" expected"))

/-- `scanner.py` `atom_tail`. -/
def atom_tailBody (atomP : PState → PRes Unit) (atom_tailP : PState → PRes Unit)
    (s : PState) : PRes Unit :=
  if s.la = some Kind.kand then
    (pmatch .kand s).bind fun s1 _ =>
    (atomP s1).bind fun s2 _ =>
    atom_tailP s2
  else if s.la = some Kind.krp ∨ s.la = some Kind.kor ∨ s.la = some Kind.kxor ∨
      s.la = some Kind.kid ∨ s.la = some Kind.kprint ∨ s.la = none then
    .ok s ()
  else
    .err s (.parse ("in atom_tail: \"and\", \")\", \"or\", \"xor\", \"id\" or \"print\" expected"))

/-- `scanner.py` `factor`. -/
def factorBody (atomP : PState → PRes Unit) (atom_tailP : PState → PRes Unit)
    (s : PState) : PRes Unit :=
  if s.la = some Kind.klp ∨ s.la = some Kind.kid ∨ s.la = some Kind.kbin then
    (atomP s).bind fun s1 _ =>
    atom_tailP s1
  else .err s (.parse ("in factor: \"(\", \"id\" or \"bin\" expected"))

/-- `scanner.py` `factor_tail`; its message also begins `in term_tail:`. -/
def factor_tailBody (factorP : PState → PRes Unit) (factor_tailP : PState → PRes Unit)
    (s : PState) : PRes Unit :=
  if s.la = some Kind.kor then
    (pmatch .kor s).bind fun s1 _ =>
    (factorP s1).bind fun s2 _ =>
    factor_tailP s2
  else if s.la = some Kind.krp ∨ s.la = some Kind.kxor ∨ s.la = some Kind.kid ∨
      s.la = some Kind.kprint ∨ s.la = none then
    .ok s ()
  else
    .err s (.parse ("in term_tail: \"or\", \")\", \"xor\", \"id\" or \"print\" expected"))

/-- `scanner.py` `term`. -/
def termBody (factorP : PState → PRes Unit) (factor_tailP : PState → PRes Unit)
    (s : PState) : PRes Unit :=
  if s.la = some Kind.klp ∨ s.la = some Kind.kid ∨ s.la = some Kind.kbin then
    (factorP s).bind fun s1 _ =>
    factor_tailP s1
  else .err s (.parse ("in term: \"(\", \"id\" or \"bin\" expected"))

/-- `scanner.py` `term_tail`. -/
def term_tailBody (termP : PState → PRes Unit) (term_tailP : PState → PRes Unit)
    (s : PState) : PRes Unit :=
  if s.la = some Kind.kxor then
    (pmatch .kxor s).bind fun s1 _ =>
    (termP s1).bind fun s2 _ =>
    term_tailP s2
  else if s.la = some Kind.krp ∨ s.la = some Kind.kid ∨ s.la = some Kind.kprint ∨
      s.la = none then
    .ok s ()
  else
    .err s (.parse ("in term_tail: \"xor\", \")\", \"id\" or \"print\" expected"))

/-- `scanner.py` `expr`. -/
def exprBody (termP : PState → PRes Unit) (term_tailP : PState → PRes Unit)
    (s : PState) : PRes Unit :=
  if s.la = some Kind.klp ∨ s.la = some Kind.kid ∨ s.la = some Kind.kbin then
    (termP s).bind fun s1 _ =>
    term_tailP s1
  else .err s (.parse ("in expr: \"(\", \"id\" or \"bin\" expected"))

/-- `scanner.py` `stmt`: recognition only, no assignment and no printing. -/
def stmtBody (exprP : PState → PRes Unit) (s : PState) : PRes Unit :=
  if s.la = some Kind.kid then
    (pmatch .kid s).bind fun s1 _ =>
    (pmatch .keq s1).bind fun s2 _ =>
    (exprP s2).bind fun s3 _ =>
    .ok s3 ()
  else if s.la = some Kind.kprint then
    (pmatch .kprint s).bind fun s1 _ =>
    (exprP s1).bind fun s2 _ =>
    .ok s2 ()
  else .err s (.parse ("in stmt: \"id\" or \"print\" expected"))

/-- `scanner.py` `stmt_list`. -/
def stmt_listBody (stmtP : PState → PRes Unit) (stmt_listP : PState → PRes Unit)
    (s : PState) : PRes Unit :=
  if s.la = some Kind.kid ∨ s.la = some Kind.kprint then
    (stmtP s).bind fun s1 _ =>
    stmt_listP s1
  else if s.la = none then .ok s ()
  else .err s (.parse ("in stmt_list: \"id\" or \"print\" expected"))

mutual

/-- Fuel-indexed `scanner.py` `atom`. -/
def atomF : Nat → PState → PRes Unit
  | 0, _ => .fuel
  | f+1, s => Rec.atomBody (Rec.exprF f) s

/-- Fuel-indexed `scanner.py` `atom_tail`. -/
def atom_tailF : Nat → PState → PRes Unit
  | 0, _ => .fuel
  | f+1, s => Rec.atom_tailBody (Rec.atomF f) (Rec.atom_tailF f) s

/-- Fuel-indexed `scanner.py` `factor`. -/
def factorF : Nat → PState → PRes Unit
  | 0, _ => .fuel
  | f+1, s => Rec.factorBody (Rec.atomF f) (Rec.atom_tailF f) s

/-- Fuel-indexed `scanner.py` `factor_tail`. -/
def factor_tailF : Nat → PState → PRes Unit
  | 0, _ => .fuel
  | f+1, s => Rec.factor_tailBody (Rec.factorF f) (Rec.factor_tailF f) s

/-- Fuel-indexed `scanner.py` `term`. -/
def termF : Nat → PState → PRes Unit
  | 0, _ => .fuel
  | f+1, s => Rec.termBody (Rec.factorF f) (Rec.factor_tailF f) s

/-- Fuel-indexed `scanner.py` `term_tail`. -/
def term_tailF : Nat → PState → PRes Unit
  | 0, _ => .fuel
  | f+1, s => Rec.term_tailBody (Rec.termF f) (Rec.term_tailF f) s

/-- Fuel-indexed `scanner.py` `expr`. -/
def exprF : Nat → PState → PRes Unit
  | 0, _ => .fuel
  | f+1, s => Rec.exprBody (Rec.termF f) (Rec.term_tailF f) s

/-- Fuel-indexed `scanner.py` `stmt`. -/
def stmtF : Nat → PState → PRes Unit
  | 0, _ => .fuel
  | f+1, s => Rec.stmtBody (Rec.exprF f) s

/-- Fuel-indexed `scanner.py` `stmt_list`. -/
def stmt_listF : Nat → PState → PRes Unit
  | 0, _ => .fuel
  | f+1, s => Rec.stmt_listBody (Rec.stmtF f) (Rec.stmt_listF f) s

end

/-- `scanner.py` `parse`. -/
def parseF (f : Nat) (q : TokSeq) : PRes Unit :=
  (nextToken (initState q)).bind fun s1 _ => Rec.stmt_listF f s1

end Rec

/-- A token with the fixed scanner position (0, 0); positions never influence
anything but diagnostics, so program-equivalence statements use streams of
these. -/
def tk (k : Kind) (x : String) : Token := { kind := k, lexeme := x, line := 0, col := 0 }

/-- A failure-free token sequence. -/
def strm (T : List Token) : TokSeq := T.map TokRes.tok

/-- Every token in the list carries position (0, 0). -/
def posZero (T : List Token) : Prop := ∀ t ∈ T, t.line = 0 ∧ t.col = 0

/-- The parser configuration looking at the token list `T` (lookahead loaded
from its head, rest of the stream behind it), with symbol table `env` and
output so far `out`, scanner at position (0, 0). -/
def cf (T : List Token) (env : List (String × Nat)) (out : List String) : PState :=
  match T with
  | [] => { la := none, val := "", ts := [], vars := env, out := out, line := 0, col := 0 }
  | t :: r => { la := some t.kind, val := t.lexeme, ts := strm r, vars := env, out := out,
                line := 0, col := 0 }

/-- Abstract syntax of expressions of the grammar, used to quantify over
"every valid expression" in program-equivalence statements. -/
inductive BExpr where
  | lit (s : String)
  | var (x : String)
  | band (a b : BExpr)
  | bor (a b : BExpr)
  | bxor (a b : BExpr)
deriving DecidableEq, Repr

/-- Reference meaning of an expression: python `&`, `|`, `^` on non-negative
ints, `none` when some identifier is undefined. -/
def evalB (env : List (String × Nat)) : BExpr → Option Nat
  | .lit s => some (binVal s)
  | .var x => lookupVar env x
  | .band a b =>
      match evalB env a, evalB env b with
      | some u, some w => some (u &&& w)
      | _, _ => none
  | .bor a b =>
      match evalB env a, evalB env b with
      | some u, some w => some (u ||| w)
      | _, _ => none
  | .bxor a b =>
      match evalB env a, evalB env b with
      | some u, some w => some (u ^^^ w)
      | _, _ => none

/-- Whether an expression is an operator application (and hence is rendered
inside parentheses where the grammar requires an `Atom`). -/
def isComp : BExpr → Bool
  | .lit _ => false
  | .var _ => false
  | .band _ _ => true
  | .bor _ _ => true
  | .bxor _ _ => true

/-- Wrap a token list in parentheses when the flag demands it. -/
def wrap (T : List Token) (c : Bool) : List Token :=
  if c then tk .klp ("(") :: (T ++ [tk .krp (")")]) else T

/-- Tokens of an expression in the `Expr` position: operator applications are
written with both operands parenthesized whenever the operand is itself an
application, so the rendering is accepted at the `Atom` level wherever
needed. -/
def rendE : BExpr → List Token
  | .lit s => [tk .kbin s]
  | .var x => [tk .kid x]
  | .band a b => wrap (rendE a) (isComp a) ++ tk .kand ("and") :: wrap (rendE b) (isComp b)
  | .bor a b => wrap (rendE a) (isComp a) ++ tk .kor ("or") :: wrap (rendE b) (isComp b)
  | .bxor a b => wrap (rendE a) (isComp a) ++ tk .kxor ("xor") :: wrap (rendE b) (isComp b)

/-- Tokens of an expression in the `Atom` position. -/
def rendA (e : BExpr) : List Token := wrap (rendE e) (isComp e)

/-- Fuel sufficient for `exprF` to consume `rendE e` (a crude upper bound on
the recursion depth). -/
def needE : BExpr → Nat
  | .lit _ => 4
  | .var _ => 4
  | .band a b =>
      4 + (if isComp a then 1 + needE a else 1) + (if isComp b then 1 + needE b else 1)
  | .bor a b =>
      4 + (if isComp a then 1 + needE a else 1) + (if isComp b then 1 + needE b else 1)
  | .bxor a b =>
      4 + (if isComp a then 1 + needE a else 1) + (if isComp b then 1 + needE b else 1)

/-- Fuel sufficient for `atomF` to consume `rendA e`. -/
def needA (e : BExpr) : Nat := if isComp e then 1 + needE e else 1

/-- Tokens of an operator chain continuation `op x₁ op x₂ …` of binary
literals, all at one precedence level. -/
def chainT (k : Kind) (w : String) : List String → List Token
  | [] => []
  | x :: r => tk k w :: tk .kbin x :: chainT k w r

/-- Token lists whose head (if any) has one of the given kinds; used to state
the empty (FOLLOW-set) alternatives of the tail procedures. -/
def headIn (T : List Token) (ks : List Kind) : Prop :=
  match T with
  | [] => True
  | t :: _ => t.kind ∈ ks

/-- A token list a rendered expression may legally be followed by in every
statement context of this development. -/
def restOK (T : List Token) : Prop := headIn T [Kind.krp, Kind.kid, Kind.kprint]

/-- Replace the evaluator-only fields of a parser state; `scanner.py`'s
parser never reads nor writes them. -/
def updVO (s : PState) (A : List (String × Nat)) (B : List String) : PState :=
  { s with vars := A, out := B }

/-- The recognizer's result predicted from the evaluator's. -/
def mapRes {α : Type} (A : List (String × Nat)) (B : List String) : PRes α → PRes Unit
  | .ok p _ => .ok (updVO p A B) ()
  | .err p e => .err (updVO p A B) e
  | .fuel => .fuel

/-- No undefined-variable error was raised. -/
def noUV {α : Type} : PRes α → Prop
  | .err _ (.parse m) => m ≠ uvMsg
  | _ => True

/-- Vars and output of the result state agree with the given state (frame
property of the pure expression procedures). -/
def presVO {α : Type} (s : PState) : PRes α → Prop
  | .ok p _ => p.vars = s.vars ∧ p.out = s.out
  | .err p _ => p.vars = s.vars ∧ p.out = s.out
  | .fuel => True

/-- Result states of statement procedures: output only ever grows, and every
new line is the binary rendering of some value. -/
def outGrow {α : Type} (s : PState) : PRes α → Prop
  | .ok p _ => ∃ d, p.out = s.out ++ d ∧ ∀ y ∈ d, ∃ v, y = natToBin v
  | .err p _ => ∃ d, p.out = s.out ++ d ∧ ∀ y ∈ d, ∃ v, y = natToBin v
  | .fuel => True

theorem PRes.bind_ok {α β : Type} (s : PState) (v : α) (g : PState → α → PRes β) :
    (PRes.ok s v).bind g = g s v := rfl

theorem PRes.bind_err {α β : Type} (s : PState) (e : Err) (g : PState → α → PRes β) :
    (PRes.err s e).bind g = PRes.err s e := rfl

theorem PRes.bind_fuel {α β : Type} (g : PState → α → PRes β) :
    (PRes.fuel : PRes α).bind g = PRes.fuel := rfl

theorem posZero_nil : posZero [] := by
  intro t ht
  cases ht

theorem posZero_cons {t : Token} {T : List Token} :
    posZero (t :: T) ↔ (t.line = 0 ∧ t.col = 0) ∧ posZero T := by
  constructor
  · intro h
    exact ⟨h t (List.mem_cons_self t T), fun u hu => h u (List.mem_cons_of_mem t hu)⟩
  · rintro ⟨h1, h2⟩ u hu
    rcases List.mem_cons.mp hu with rfl | hu
    · exact h1
    · exact h2 u hu

theorem posZero_append {A B : List Token} :
    posZero (A ++ B) ↔ posZero A ∧ posZero B := by
  constructor
  · intro h
    exact ⟨fun t ht => h t (List.mem_append_left B ht), fun t ht => h t (List.mem_append_right A ht)⟩
  · rintro ⟨h1, h2⟩ t ht
    rcases List.mem_append.mp ht with ht | ht
    · exact h1 t ht
    · exact h2 t ht

theorem posZero_tk (k : Kind) (x : String) : (tk k x).line = 0 ∧ (tk k x).col = 0 := ⟨rfl, rfl⟩

theorem posZero_wrap {T : List Token} (c : Bool) (h : posZero T) : posZero (wrap T c) := by
  cases c
  · simpa [wrap] using h
  · simp only [wrap, if_pos]
    rw [posZero_cons, posZero_append]
    exact ⟨posZero_tk _ _, h, by rw [posZero_cons]; exact ⟨posZero_tk _ _, posZero_nil⟩⟩

theorem posZero_rendE (e : BExpr) : posZero (rendE e) := by
  induction e with
  | lit s => rw [rendE, posZero_cons]; exact ⟨posZero_tk _ _, posZero_nil⟩
  | var x => rw [rendE, posZero_cons]; exact ⟨posZero_tk _ _, posZero_nil⟩
  | band a b iha ihb =>
      rw [rendE, posZero_append, posZero_cons]
      exact ⟨posZero_wrap _ iha, posZero_tk _ _, posZero_wrap _ ihb⟩
  | bor a b iha ihb =>
      rw [rendE, posZero_append, posZero_cons]
      exact ⟨posZero_wrap _ iha, posZero_tk _ _, posZero_wrap _ ihb⟩
  | bxor a b iha ihb =>
      rw [rendE, posZero_append, posZero_cons]
      exact ⟨posZero_wrap _ iha, posZero_tk _ _, posZero_wrap _ ihb⟩

theorem posZero_rendA (e : BExpr) : posZero (rendA e) := posZero_wrap _ (posZero_rendE e)

theorem posZero_chainT (k : Kind) (w : String) (xs : List String) :
    posZero (chainT k w xs) := by
  induction xs with
  | nil => exact posZero_nil
  | cons x r ih =>
      rw [chainT, posZero_cons, posZero_cons]
      exact ⟨posZero_tk _ _, posZero_tk _ _, ih⟩

theorem cf_la_cons (t : Token) (T : List Token) (env : List (String × Nat)) (out : List String) :
    (cf (t :: T) env out).la = some t.kind := rfl

theorem cf_la_nil (env : List (String × Nat)) (out : List String) :
    (cf [] env out).la = none := rfl

theorem cf_val_cons (t : Token) (T : List Token) (env : List (String × Nat)) (out : List String) :
    (cf (t :: T) env out).val = t.lexeme := rfl

theorem cf_vars (T : List Token) (env : List (String × Nat)) (out : List String) :
    (cf T env out).vars = env := by
  cases T <;> rfl

theorem cf_out (T : List Token) (env : List (String × Nat)) (out : List String) :
    (cf T env out).out = out := by
  cases T <;> rfl

theorem nextToken_cf (t : Token) (T : List Token) (env : List (String × Nat))
    (out : List String) (hz : posZero T) :
    nextToken (cf (t :: T) env out) = .ok (cf T env out) () := by
  cases T with
  | nil => rfl
  | cons u R =>
      obtain ⟨⟨h1, h2⟩, _⟩ := posZero_cons.mp hz
      simp [nextToken, cf, strm, h1, h2]

theorem pmatch_cf (t : Token) (T : List Token) (env : List (String × Nat))
    (out : List String) (hz : posZero T) :
    pmatch t.kind (cf (t :: T) env out) = .ok (cf T env out) () := by
  rw [pmatch, if_pos (cf_la_cons t T env out)]
  exact nextToken_cf t T env out hz

theorem pmatch_no {k : Kind} {s : PState} (h : ¬ s.la = some k) :
    pmatch k s = .err s (.parse (("found ") ++ laStr s.la ++ (" instead of ") ++ kindStr k)) := by
  rw [pmatch, if_neg h]

theorem atom_tail_eps (f w : Nat) (T : List Token) (env : List (String × Nat))
    (out : List String) (hf : 1 ≤ f)
    (h : headIn T [Kind.krp, Kind.kor, Kind.kxor, Kind.kid, Kind.kprint]) :
    atom_tailF f w (cf T env out) = .ok (cf T env out) w := by
  obtain ⟨g, rfl⟩ : ∃ g, f = g + 1 := ⟨f - 1, by omega⟩
  cases T with
  | nil => simp [atom_tailF, atom_tailBody, cf]
  | cons t R =>
      have h' : t.kind = Kind.krp ∨ t.kind = Kind.kor ∨ t.kind = Kind.kxor ∨
          t.kind = Kind.kid ∨ t.kind = Kind.kprint := by
        simpa [headIn] using h
      rcases h' with h' | h' | h' | h' | h' <;> simp [atom_tailF, atom_tailBody, cf, h']

theorem factor_tail_eps (f w : Nat) (T : List Token) (env : List (String × Nat))
    (out : List String) (hf : 1 ≤ f)
    (h : headIn T [Kind.krp, Kind.kxor, Kind.kid, Kind.kprint]) :
    factor_tailF f w (cf T env out) = .ok (cf T env out) w := by
  obtain ⟨g, rfl⟩ : ∃ g, f = g + 1 := ⟨f - 1, by omega⟩
  cases T with
  | nil => simp [factor_tailF, factor_tailBody, cf]
  | cons t R =>
      have h' : t.kind = Kind.krp ∨ t.kind = Kind.kxor ∨
          t.kind = Kind.kid ∨ t.kind = Kind.kprint := by
        simpa [headIn] using h
      rcases h' with h' | h' | h' | h' <;> simp [factor_tailF, factor_tailBody, cf, h']

theorem term_tail_eps (f w : Nat) (T : List Token) (env : List (String × Nat))
    (out : List String) (hf : 1 ≤ f)
    (h : headIn T [Kind.krp, Kind.kid, Kind.kprint]) :
    term_tailF f w (cf T env out) = .ok (cf T env out) w := by
  obtain ⟨g, rfl⟩ : ∃ g, f = g + 1 := ⟨f - 1, by omega⟩
  cases T with
  | nil => simp [term_tailF, term_tailBody, cf]
  | cons t R =>
      have h' : t.kind = Kind.krp ∨ t.kind = Kind.kid ∨ t.kind = Kind.kprint := by
        simpa [headIn] using h
      rcases h' with h' | h' | h' <;> simp [term_tailF, term_tailBody, cf, h']

theorem rendE_shape (e : BExpr) :
    ∃ t R, rendE e = t :: R ∧
      (t.kind = Kind.klp ∨ t.kind = Kind.kid ∨ t.kind = Kind.kbin) := by
  induction e with
  | lit s => exact ⟨tk .kbin s, [], rfl, Or.inr (Or.inr rfl)⟩
  | var x => exact ⟨tk .kid x, [], rfl, Or.inr (Or.inl rfl)⟩
  | band a b iha ihb =>
      cases hc : isComp a with
      | true =>
          have hx : rendE (.band a b) =
              tk .klp ("(") ::
                ((rendE a ++ [tk .krp (")")]) ++ tk .kand ("and") :: wrap (rendE b) (isComp b)) := by
            simp [rendE, wrap, hc]
          exact ⟨_, _, hx, Or.inl rfl⟩
      | false =>
          obtain ⟨t, R, hR, ht⟩ := iha
          have hx : rendE (.band a b) =
              t :: (R ++ tk .kand ("and") :: wrap (rendE b) (isComp b)) := by
            simp [rendE, wrap, hc, hR]
          exact ⟨_, _, hx, ht⟩
  | bor a b iha ihb =>
      cases hc : isComp a with
      | true =>
          have hx : rendE (.bor a b) =
              tk .klp ("(") ::
                ((rendE a ++ [tk .krp (")")]) ++ tk .kor ("or") :: wrap (rendE b) (isComp b)) := by
            simp [rendE, wrap, hc]
          exact ⟨_, _, hx, Or.inl rfl⟩
      | false =>
          obtain ⟨t, R, hR, ht⟩ := iha
          have hx : rendE (.bor a b) =
              t :: (R ++ tk .kor ("or") :: wrap (rendE b) (isComp b)) := by
            simp [rendE, wrap, hc, hR]
          exact ⟨_, _, hx, ht⟩
  | bxor a b iha ihb =>
      cases hc : isComp a with
      | true =>
          have hx : rendE (.bxor a b) =
              tk .klp ("(") ::
                ((rendE a ++ [tk .krp (")")]) ++ tk .kxor ("xor") :: wrap (rendE b) (isComp b)) := by
            simp [rendE, wrap, hc]
          exact ⟨_, _, hx, Or.inl rfl⟩
      | false =>
          obtain ⟨t, R, hR, ht⟩ := iha
          have hx : rendE (.bxor a b) =
              t :: (R ++ tk .kxor ("xor") :: wrap (rendE b) (isComp b)) := by
            simp [rendE, wrap, hc, hR]
          exact ⟨_, _, hx, ht⟩

theorem rendA_shape (e : BExpr) :
    ∃ t R, rendA e = t :: R ∧
      (t.kind = Kind.klp ∨ t.kind = Kind.kid ∨ t.kind = Kind.kbin) := by
  cases hc : isComp e with
  | true =>
      have hx : rendA e = tk .klp ("(") :: (rendE e ++ [tk .krp (")")]) := by
        simp [rendA, wrap, hc]
      exact ⟨_, _, hx, Or.inl rfl⟩
  | false =>
      obtain ⟨t, R, hR, ht⟩ := rendE_shape e
      exact ⟨t, R, by simp [rendA, wrap, hc, hR], ht⟩

theorem first_rendE (e : BExpr) (T : List Token) (env : List (String × Nat))
    (out : List String) :
    (cf (rendE e ++ T) env out).la = some Kind.klp ∨
    (cf (rendE e ++ T) env out).la = some Kind.kid ∨
    (cf (rendE e ++ T) env out).la = some Kind.kbin := by
  obtain ⟨t, R, hR, ht⟩ := rendE_shape e
  rw [hR, List.cons_append, cf_la_cons]
  rcases ht with h | h | h
  · exact Or.inl (by rw [h])
  · exact Or.inr (Or.inl (by rw [h]))
  · exact Or.inr (Or.inr (by rw [h]))

theorem first_rendA (e : BExpr) (T : List Token) (env : List (String × Nat))
    (out : List String) :
    (cf (rendA e ++ T) env out).la = some Kind.klp ∨
    (cf (rendA e ++ T) env out).la = some Kind.kid ∨
    (cf (rendA e ++ T) env out).la = some Kind.kbin := by
  obtain ⟨t, R, hR, ht⟩ := rendA_shape e
  rw [hR, List.cons_append, cf_la_cons]
  rcases ht with h | h | h
  · exact Or.inl (by rw [h])
  · exact Or.inr (Or.inl (by rw [h]))
  · exact Or.inr (Or.inr (by rw [h]))

theorem lookup_setVar (m : List (String × Nat)) (x : String) (v : Nat) :
    lookupVar (setVar m x v) x = some v := by
  induction m with
  | nil => simp [setVar, lookupVar]
  | cons p r ih =>
      obtain ⟨k, w⟩ := p
      by_cases hk : k = x
      · simp [setVar, lookupVar, hk]
      · simp [setVar, lookupVar, hk, ih]

theorem binDigsF_eq_digits (f : Nat) :
    ∀ n, n ≤ f →
      binDigsF f n = (Nat.digits 2 n).map (fun d => if d = 1 then '1' else '0') := by
  induction f with
  | zero =>
      intro n hn
      interval_cases n
      simp [binDigsF]
  | succ f ih =>
      intro n hn
      cases n with
      | zero => simp [binDigsF]
      | succ m =>
          rw [binDigsF, Nat.digits_def' (by norm_num : (1:Nat) < 2) (Nat.succ_pos m),
            List.map_cons]
          congr 1
          exact ih ((m+1)/2) (by omega)

theorem natToBin_eq_digits (n : Nat) (h : n ≠ 0) :
    natToBin n =
      String.mk (((Nat.digits 2 n).map (fun d => if d = 1 then '1' else '0')).reverse) := by
  rw [natToBin, if_neg h, binDigsF_eq_digits n n le_rfl]

theorem foldl_bits_rev (L : List Nat) (hL : ∀ d ∈ L, d < 2) :
    ((L.map (fun d => if d = 1 then '1' else '0')).reverse).foldl
      (fun a c => 2 * a + bitVal c) 0 = Nat.ofDigits 2 L := by
  induction L with
  | nil => simp [Nat.ofDigits]
  | cons d L ih =>
      have hd : d < 2 := hL d (List.mem_cons_self d L)
      have hrest : ∀ x ∈ L, x < 2 := fun x hx => hL x (List.mem_cons_of_mem d hx)
      rw [List.map_cons, List.reverse_cons, List.foldl_append, ih hrest,
        Nat.ofDigits_cons]
      have hbv : bitVal (if d = 1 then '1' else '0') = d := by
        interval_cases d <;> simp [bitVal]
      simp only [List.foldl_cons, List.foldl_nil, hbv]
      ring

theorem binVal_natToBin (n : Nat) : binVal (natToBin n) = n := by
  by_cases h : n = 0
  · subst h
    rfl
  · rw [natToBin_eq_digits n h]
    have : binVal (String.mk (((Nat.digits 2 n).map
        (fun d => if d = 1 then '1' else '0')).reverse)) =
        ((((Nat.digits 2 n).map (fun d => if d = 1 then '1' else '0'))).reverse).foldl
          (fun a c => 2 * a + bitVal c) 0 := rfl
    rw [this, foldl_bits_rev _ (fun d hd => Nat.digits_lt_base (by norm_num) hd),
      Nat.ofDigits_digits]

theorem natToBin_head (n : Nat) (h : n ≠ 0) : (natToBin n).data.head? = some '1' := by
  rw [natToBin_eq_digits n h]
  have hne : Nat.digits 2 n ≠ [] := Nat.digits_ne_nil_iff_ne_zero.mpr h
  have hmapne : (Nat.digits 2 n).map (fun d => if d = 1 then '1' else '0') ≠ [] := by
    simpa using hne
  have h1 : (String.mk (((Nat.digits 2 n).map
      (fun d => if d = 1 then '1' else '0')).reverse)).data =
      ((Nat.digits 2 n).map (fun d => if d = 1 then '1' else '0')).reverse := rfl
  rw [h1, List.head?_reverse, List.getLast?_map, List.getLast?_eq_getLast _ hne]
  have hlast : (Nat.digits 2 n).getLast hne ≠ 0 := Nat.getLast_digit_ne_zero 2 h
  have hlt : (Nat.digits 2 n).getLast hne < 2 :=
    Nat.digits_lt_base (by norm_num) (List.getLast_mem hne)
  have h2 : (Nat.digits 2 n).getLast hne = 1 := by omega
  rw [Option.map_some', h2]
  simp

theorem natToBin_chars (n : Nat) : ∀ c ∈ (natToBin n).data, c = '0' ∨ c = '1' := by
  by_cases h : n = 0
  · subst h
    intro c hc
    simp [natToBin] at hc
    exact Or.inl hc
  · rw [natToBin_eq_digits n h]
    intro c hc
    have hc' : c ∈ ((Nat.digits 2 n).map (fun d => if d = 1 then '1' else '0')) := by
      simpa using hc
    obtain ⟨d, _, rfl⟩ := List.mem_map.mp hc'
    by_cases hd : d = 1
    · simp [hd]
    · simp [hd]

theorem natToBin_ne_nil (n : Nat) : (natToBin n).data ≠ [] := by
  by_cases h : n = 0
  · subst h
    simp [natToBin]
  · rw [natToBin_eq_digits n h]
    have hne : Nat.digits 2 n ≠ [] := Nat.digits_ne_nil_iff_ne_zero.mpr h
    simpa using hne

theorem tk_kind (k : Kind) (x : String) : (tk k x).kind = k := rfl

theorem tk_lexeme (k : Kind) (x : String) : (tk k x).lexeme = x := rfl

theorem pmatch_cf_k (k : Kind) (x : String) (T : List Token) (env : List (String × Nat))
    (out : List String) (hz : posZero T) :
    pmatch k (cf (tk k x :: T) env out) = .ok (cf T env out) () := by
  simpa using pmatch_cf (tk k x) T env out hz

theorem restOK_atom_follow {T : List Token} (h : restOK T) :
    headIn T [Kind.krp, Kind.kor, Kind.kxor, Kind.kid, Kind.kprint] := by
  cases T with
  | nil => trivial
  | cons t R =>
      have h' : t.kind = Kind.krp ∨ t.kind = Kind.kid ∨ t.kind = Kind.kprint := by
        simpa [restOK, headIn] using h
      rcases h' with h' | h' | h' <;> simp [headIn, h']

theorem restOK_factor_follow {T : List Token} (h : restOK T) :
    headIn T [Kind.krp, Kind.kxor, Kind.kid, Kind.kprint] := by
  cases T with
  | nil => trivial
  | cons t R =>
      have h' : t.kind = Kind.krp ∨ t.kind = Kind.kid ∨ t.kind = Kind.kprint := by
        simpa [restOK, headIn] using h
      rcases h' with h' | h' | h' <;> simp [headIn, h']

theorem needA_pos (e : BExpr) : 1 ≤ needA e := by
  rw [needA]
  cases isComp e <;> simp

theorem needE_band (a b : BExpr) : needE (.band a b) = 4 + needA a + needA b := rfl

theorem needE_bor (a b : BExpr) : needE (.bor a b) = 4 + needA a + needA b := rfl

theorem needE_bxor (a b : BExpr) : needE (.bxor a b) = 4 + needA a + needA b := rfl

theorem atom_lit (s : String) (f : Nat) (env : List (String × Nat)) (rest : List Token)
    (out : List String) (hf : 1 ≤ f) (hz : posZero rest) :
    atomF f (cf (tk .kbin s :: rest) env out) = .ok (cf rest env out) (binVal s) := by
  obtain ⟨g, rfl⟩ : ∃ g, f = g + 1 := ⟨f - 1, by omega⟩
  rw [atomF, atomBody]
  simp only [cf_la_cons, cf_val_cons, tk_kind, tk_lexeme]
  rw [if_neg (show ¬ (some Kind.kbin = some Kind.klp) by decide),
    if_neg (show ¬ (some Kind.kbin = some Kind.kid) by decide),
    if_true, pmatch_cf_k .kbin s rest env out hz, PRes.bind_ok]

theorem atom_var (x : String) (f : Nat) (env : List (String × Nat)) (v : Nat)
    (rest : List Token) (out : List String) (hv : lookupVar env x = some v)
    (hf : 1 ≤ f) (hz : posZero rest) :
    atomF f (cf (tk .kid x :: rest) env out) = .ok (cf rest env out) v := by
  obtain ⟨g, rfl⟩ : ∃ g, f = g + 1 := ⟨f - 1, by omega⟩
  rw [atomF, atomBody]
  simp only [cf_la_cons, cf_val_cons, tk_kind, tk_lexeme]
  rw [if_neg (show ¬ (some Kind.kid = some Kind.klp) by decide),
    if_true, pmatch_cf_k .kid x rest env out hz, PRes.bind_ok, cf_vars, hv]

theorem atom_of_expr (e : BExpr) (hc : isComp e = true)
    (hE : ∀ f env v rest out, evalB env e = some v → needE e ≤ f → posZero rest →
      restOK rest → exprF f (cf (rendE e ++ rest) env out) = .ok (cf rest env out) v)
    (f : Nat) (env : List (String × Nat)) (v : Nat) (rest : List Token) (out : List String)
    (hv : evalB env e = some v) (hf : needA e ≤ f) (hz : posZero rest) :
    atomF f (cf (rendA e ++ rest) env out) = .ok (cf rest env out) v := by
  have hfE : 1 + needE e ≤ f := by
    rw [needA, hc] at hf
    simpa using hf
  obtain ⟨g, rfl⟩ : ∃ g, f = g + 1 := ⟨f - 1, by omega⟩
  have hsh : rendA e ++ rest = tk .klp ("(") :: (rendE e ++ (tk .krp (")") :: rest)) := by
    simp [rendA, wrap, hc]
  rw [hsh, atomF, atomBody]
  simp only [cf_la_cons, tk_kind]
  rw [if_true]
  rw [pmatch_cf_k .klp ("(") _ env out
      (by
        rw [posZero_append, posZero_cons]
        exact ⟨posZero_rendE e, posZero_tk _ _, hz⟩),
    PRes.bind_ok,
    hE g env v (tk .krp (")") :: rest) out hv (by omega)
      (by rw [posZero_cons]; exact ⟨posZero_tk _ _, hz⟩)
      (by simp [restOK, headIn, tk_kind]),
    PRes.bind_ok, pmatch_cf_k .krp (")") rest env out hz, PRes.bind_ok]

theorem rend_correct (e : BExpr) :
    (∀ f env v rest out, evalB env e = some v → needE e ≤ f → posZero rest → restOK rest →
      exprF f (cf (rendE e ++ rest) env out) = .ok (cf rest env out) v) ∧
    (∀ f env v rest out, evalB env e = some v → needA e ≤ f → posZero rest →
      atomF f (cf (rendA e ++ rest) env out) = .ok (cf rest env out) v) := by
  induction e with
  | lit s =>
      constructor
      · intro f env v rest out hv hf hz hr
        have hv' : binVal s = v := by simpa [evalB] using hv
        subst hv'
        have hf4 : 4 ≤ f := by simpa [needE] using hf
        obtain ⟨f1, rfl⟩ : ∃ f1, f = f1 + 1 := ⟨f - 1, by omega⟩
        obtain ⟨f2, rfl⟩ : ∃ f2, f1 = f2 + 1 := ⟨f1 - 1, by omega⟩
        obtain ⟨f3, rfl⟩ : ∃ f3, f2 = f3 + 1 := ⟨f2 - 1, by omega⟩
        rw [exprF, exprBody, if_pos (first_rendE (.lit s) rest env out),
          termF, termBody, if_pos (first_rendE (.lit s) rest env out),
          factorF, factorBody, if_pos (first_rendE (.lit s) rest env out)]
        rw [show rendE (.lit s) ++ rest = tk .kbin s :: rest by simp [rendE]]
        rw [atom_lit s f3 env rest out (by omega) hz, PRes.bind_ok,
          atom_tail_eps f3 (binVal s) rest env out (by omega) (restOK_atom_follow hr),
          PRes.bind_ok,
          factor_tail_eps (f3+1) (binVal s) rest env out (by omega) (restOK_factor_follow hr),
          PRes.bind_ok,
          term_tail_eps (f3+1+1) (binVal s) rest env out (by omega) hr]
      · intro f env v rest out hv hf hz
        have hv' : lookupVar env s = some v ∨ binVal s = v := by
          right
          simpa [evalB] using hv
        have hv'' : binVal s = v := by simpa [evalB] using hv
        subst hv''
        rw [show rendA (.lit s) ++ rest = tk .kbin s :: rest by simp [rendA, rendE, wrap, isComp]]
        exact atom_lit s f env rest out (by have := needA_pos (.lit s); omega) hz
  | var x =>
      constructor
      · intro f env v rest out hv hf hz hr
        have hv' : lookupVar env x = some v := by simpa [evalB] using hv
        have hf4 : 4 ≤ f := by simpa [needE] using hf
        obtain ⟨f1, rfl⟩ : ∃ f1, f = f1 + 1 := ⟨f - 1, by omega⟩
        obtain ⟨f2, rfl⟩ : ∃ f2, f1 = f2 + 1 := ⟨f1 - 1, by omega⟩
        obtain ⟨f3, rfl⟩ : ∃ f3, f2 = f3 + 1 := ⟨f2 - 1, by omega⟩
        rw [exprF, exprBody, if_pos (first_rendE (.var x) rest env out),
          termF, termBody, if_pos (first_rendE (.var x) rest env out),
          factorF, factorBody, if_pos (first_rendE (.var x) rest env out)]
        rw [show rendE (.var x) ++ rest = tk .kid x :: rest by simp [rendE]]
        rw [atom_var x f3 env v rest out hv' (by omega) hz, PRes.bind_ok,
          atom_tail_eps f3 v rest env out (by omega) (restOK_atom_follow hr),
          PRes.bind_ok,
          factor_tail_eps (f3+1) v rest env out (by omega) (restOK_factor_follow hr),
          PRes.bind_ok,
          term_tail_eps (f3+1+1) v rest env out (by omega) hr]
      · intro f env v rest out hv hf hz
        have hv' : lookupVar env x = some v := by simpa [evalB] using hv
        rw [show rendA (.var x) ++ rest = tk .kid x :: rest by simp [rendA, rendE, wrap, isComp]]
        exact atom_var x f env v rest out hv' (by have := needA_pos (.var x); omega) hz
  | band a b iha ihb =>
      have hE : ∀ f env v rest out, evalB env (.band a b) = some v → needE (.band a b) ≤ f →
          posZero rest → restOK rest →
          exprF f (cf (rendE (.band a b) ++ rest) env out) = .ok (cf rest env out) v := by
        intro f env v rest out hv hf hz hr
        rcases hva : evalB env a with _ | va
        · simp [evalB, hva] at hv
        rcases hvb : evalB env b with _ | vb
        · simp [evalB, hva, hvb] at hv
        have hv' : va &&& vb = v := by simpa [evalB, hva, hvb] using hv
        subst hv'
        rw [needE_band] at hf
        have h1a := needA_pos a
        have h1b := needA_pos b
        obtain ⟨f1, rfl⟩ : ∃ f1, f = f1 + 1 := ⟨f - 1, by omega⟩
        obtain ⟨f2, rfl⟩ : ∃ f2, f1 = f2 + 1 := ⟨f1 - 1, by omega⟩
        obtain ⟨f3, rfl⟩ : ∃ f3, f2 = f3 + 1 := ⟨f2 - 1, by omega⟩
        obtain ⟨f4, rfl⟩ : ∃ f4, f3 = f4 + 1 := ⟨f3 - 1, by omega⟩
        rw [exprF, exprBody, if_pos (first_rendE (.band a b) rest env out),
          termF, termBody, if_pos (first_rendE (.band a b) rest env out),
          factorF, factorBody, if_pos (first_rendE (.band a b) rest env out)]
        rw [show rendE (.band a b) ++ rest =
            rendA a ++ (tk .kand ("and") :: (rendA b ++ rest)) by
          simp [rendE, rendA]]
        rw [iha.2 (f4+1) env va (tk .kand ("and") :: (rendA b ++ rest)) out hva (by omega)
            (by rw [posZero_cons]
                exact ⟨posZero_tk _ _, posZero_append.mpr ⟨posZero_rendA b, hz⟩⟩),
          PRes.bind_ok]
        rw [atom_tailF, atom_tailBody]
        simp only [cf_la_cons, tk_kind]
        rw [if_true,
          pmatch_cf_k .kand ("and") (rendA b ++ rest) env out
            (posZero_append.mpr ⟨posZero_rendA b, hz⟩),
          PRes.bind_ok,
          ihb.2 f4 env vb rest out hvb (by omega) hz, PRes.bind_ok,
          atom_tail_eps f4 vb rest env out (by omega) (restOK_atom_follow hr), PRes.bind_ok,
          PRes.bind_ok,
          factor_tail_eps (f4+1+1) (va &&& vb) rest env out (by omega)
            (restOK_factor_follow hr),
          PRes.bind_ok,
          term_tail_eps (f4+1+1+1) (va &&& vb) rest env out (by omega) hr]
      exact ⟨hE, fun f env v rest out hv hf hz =>
        atom_of_expr (.band a b) rfl hE f env v rest out hv hf hz⟩
  | bor a b iha ihb =>
      have hE : ∀ f env v rest out, evalB env (.bor a b) = some v → needE (.bor a b) ≤ f →
          posZero rest → restOK rest →
          exprF f (cf (rendE (.bor a b) ++ rest) env out) = .ok (cf rest env out) v := by
        intro f env v rest out hv hf hz hr
        rcases hva : evalB env a with _ | va
        · simp [evalB, hva] at hv
        rcases hvb : evalB env b with _ | vb
        · simp [evalB, hva, hvb] at hv
        have hv' : va ||| vb = v := by simpa [evalB, hva, hvb] using hv
        subst hv'
        rw [needE_bor] at hf
        have h1a := needA_pos a
        have h1b := needA_pos b
        obtain ⟨f1, rfl⟩ : ∃ f1, f = f1 + 1 := ⟨f - 1, by omega⟩
        obtain ⟨f2, rfl⟩ : ∃ f2, f1 = f2 + 1 := ⟨f1 - 1, by omega⟩
        obtain ⟨f3, rfl⟩ : ∃ f3, f2 = f3 + 1 := ⟨f2 - 1, by omega⟩
        obtain ⟨f4, rfl⟩ : ∃ f4, f3 = f4 + 1 := ⟨f3 - 1, by omega⟩
        rw [exprF, exprBody, if_pos (first_rendE (.bor a b) rest env out),
          termF, termBody, if_pos (first_rendE (.bor a b) rest env out),
          factorF, factorBody, if_pos (first_rendE (.bor a b) rest env out)]
        rw [show rendE (.bor a b) ++ rest =
            rendA a ++ (tk .kor ("or") :: (rendA b ++ rest)) by
          simp [rendE, rendA]]
        rw [iha.2 (f4+1) env va (tk .kor ("or") :: (rendA b ++ rest)) out hva (by omega)
            (by rw [posZero_cons]
                exact ⟨posZero_tk _ _, posZero_append.mpr ⟨posZero_rendA b, hz⟩⟩),
          PRes.bind_ok,
          atom_tail_eps (f4+1) va (tk .kor ("or") :: (rendA b ++ rest)) env out (by omega)
            (by simp [headIn, tk_kind]),
          PRes.bind_ok]
        rw [factor_tailF, factor_tailBody]
        simp only [cf_la_cons, tk_kind]
        rw [if_true,
          pmatch_cf_k .kor ("or") (rendA b ++ rest) env out
            (posZero_append.mpr ⟨posZero_rendA b, hz⟩),
          PRes.bind_ok,
          factorF, factorBody, if_pos (first_rendA b rest env out),
          ihb.2 f4 env vb rest out hvb (by omega) hz, PRes.bind_ok,
          atom_tail_eps f4 vb rest env out (by omega) (restOK_atom_follow hr), PRes.bind_ok,
          factor_tail_eps (f4+1) vb rest env out (by omega) (restOK_factor_follow hr),
          PRes.bind_ok,
          PRes.bind_ok,
          term_tail_eps (f4+1+1+1) (va ||| vb) rest env out (by omega) hr]
      exact ⟨hE, fun f env v rest out hv hf hz =>
        atom_of_expr (.bor a b) rfl hE f env v rest out hv hf hz⟩
  | bxor a b iha ihb =>
      have hE : ∀ f env v rest out, evalB env (.bxor a b) = some v → needE (.bxor a b) ≤ f →
          posZero rest → restOK rest →
          exprF f (cf (rendE (.bxor a b) ++ rest) env out) = .ok (cf rest env out) v := by
        intro f env v rest out hv hf hz hr
        rcases hva : evalB env a with _ | va
        · simp [evalB, hva] at hv
        rcases hvb : evalB env b with _ | vb
        · simp [evalB, hva, hvb] at hv
        have hv' : va ^^^ vb = v := by simpa [evalB, hva, hvb] using hv
        subst hv'
        rw [needE_bxor] at hf
        have h1a := needA_pos a
        have h1b := needA_pos b
        obtain ⟨f1, rfl⟩ : ∃ f1, f = f1 + 1 := ⟨f - 1, by omega⟩
        obtain ⟨f2, rfl⟩ : ∃ f2, f1 = f2 + 1 := ⟨f1 - 1, by omega⟩
        obtain ⟨f3, rfl⟩ : ∃ f3, f2 = f3 + 1 := ⟨f2 - 1, by omega⟩
        obtain ⟨f4, rfl⟩ : ∃ f4, f3 = f4 + 1 := ⟨f3 - 1, by omega⟩
        rw [exprF, exprBody, if_pos (first_rendE (.bxor a b) rest env out),
          termF, termBody, if_pos (first_rendE (.bxor a b) rest env out),
          factorF, factorBody, if_pos (first_rendE (.bxor a b) rest env out)]
        rw [show rendE (.bxor a b) ++ rest =
            rendA a ++ (tk .kxor ("xor") :: (rendA b ++ rest)) by
          simp [rendE, rendA]]
        rw [iha.2 (f4+1) env va (tk .kxor ("xor") :: (rendA b ++ rest)) out hva (by omega)
            (by rw [posZero_cons]
                exact ⟨posZero_tk _ _, posZero_append.mpr ⟨posZero_rendA b, hz⟩⟩),
          PRes.bind_ok,
          atom_tail_eps (f4+1) va (tk .kxor ("xor") :: (rendA b ++ rest)) env out (by omega)
            (by simp [headIn, tk_kind]),
          PRes.bind_ok,
          factor_tail_eps (f4+1+1) va (tk .kxor ("xor") :: (rendA b ++ rest)) env out (by omega)
            (by simp [headIn, tk_kind]),
          PRes.bind_ok]
        rw [term_tailF, term_tailBody]
        simp only [cf_la_cons, tk_kind]
        rw [if_true,
          pmatch_cf_k .kxor ("xor") (rendA b ++ rest) env out
            (posZero_append.mpr ⟨posZero_rendA b, hz⟩),
          PRes.bind_ok,
          termF, termBody, if_pos (first_rendA b rest env out),
          factorF, factorBody, if_pos (first_rendA b rest env out),
          ihb.2 f4 env vb rest out hvb (by omega) hz, PRes.bind_ok,
          atom_tail_eps f4 vb rest env out (by omega) (restOK_atom_follow hr), PRes.bind_ok,
          factor_tail_eps (f4+1) vb rest env out (by omega) (restOK_factor_follow hr),
          PRes.bind_ok,
          term_tail_eps (f4+2) vb rest env out (by omega) hr,
          PRes.bind_ok]
      exact ⟨hE, fun f env v rest out hv hf hz =>
        atom_of_expr (.bxor a b) rfl hE f env v rest out hv hf hz⟩

theorem needE_ge (e : BExpr) : 4 ≤ needE e := by
  cases e with
  | lit s => simp [needE]
  | var x => simp [needE]
  | band a b => rw [needE_band]; omega
  | bor a b => rw [needE_bor]; omega
  | bxor a b => rw [needE_bxor]; omega

theorem out_step (T : List Token) (env : List (String × Nat)) (out X : List String) :
    ({ cf T env out with out := (cf T env out).out ++ X } : PState) = cf T env (out ++ X) := by
  cases T <;> rfl

theorem vars_step (T : List Token) (env : List (String × Nat)) (out : List String)
    (x : String) (v : Nat) :
    ({ cf T env out with vars := setVar (cf T env out).vars x v } : PState)
      = cf T (setVar env x v) out := by
  cases T <;> rfl

theorem stmt_list_step (f : Nat) (t : Token) (T : List Token) (env : List (String × Nat))
    (out : List String) (h : t.kind = Kind.kid ∨ t.kind = Kind.kprint) :
    stmt_listF (f+1) (cf (t :: T) env out) =
      (stmtF f (cf (t :: T) env out)).bind fun s1 _ => stmt_listF f s1 := by
  rw [stmt_listF, stmt_listBody]
  rcases h with h | h
  · rw [if_pos (Or.inl (show (cf (t :: T) env out).la = some Kind.kid by
      rw [cf_la_cons, h]))]
  · rw [if_pos (Or.inr (show (cf (t :: T) env out).la = some Kind.kprint by
      rw [cf_la_cons, h]))]

theorem stmt_list_nil (f : Nat) (env : List (String × Nat)) (out : List String) :
    stmt_listF (f+1) (cf [] env out) = .ok (cf [] env out) () := by
  rw [stmt_listF, stmt_listBody,
    if_neg (show ¬ ((cf [] env out).la = some Kind.kid ∨
      (cf [] env out).la = some Kind.kprint) by rw [cf_la_nil]; decide),
    if_pos (show (cf [] env out).la = none from rfl)]

theorem stmt_print_step (f : Nat) (T : List Token) (env : List (String × Nat))
    (out : List String) (hz : posZero T) :
    stmtF (f+1) (cf (tk .kprint ("print") :: T) env out) =
      (exprF f (cf T env out)).bind fun s2 v =>
        .ok { s2 with out := s2.out ++ [natToBin v] } () := by
  rw [stmtF, stmtBody,
    if_neg (show ¬ ((cf (tk .kprint ("print") :: T) env out).la = some Kind.kid) by
      rw [cf_la_cons, tk_kind]; decide),
    if_pos (show (cf (tk .kprint ("print") :: T) env out).la = some Kind.kprint from rfl),
    pmatch_cf_k .kprint ("print") T env out hz, PRes.bind_ok]

theorem stmt_assign_step (f : Nat) (x : String) (T : List Token)
    (env : List (String × Nat)) (out : List String) (hz : posZero T) :
    stmtF (f+1) (cf (tk .kid x :: tk .keq ("=") :: T) env out) =
      (exprF f (cf T env out)).bind fun s3 v =>
        .ok { s3 with vars := setVar s3.vars x v } () := by
  rw [stmtF, stmtBody,
    if_pos (show (cf (tk .kid x :: tk .keq ("=") :: T) env out).la = some Kind.kid from rfl)]
  simp only [cf_val_cons, tk_lexeme]
  rw [pmatch_cf_k .kid x (tk .keq ("=") :: T) env out
      (by rw [posZero_cons]; exact ⟨posZero_tk _ _, hz⟩),
    PRes.bind_ok,
    pmatch_cf_k .keq ("=") T env out hz, PRes.bind_ok]

theorem parse_start (f : Nat) (t : Token) (T : List Token)
    (h : posZero (t :: T)) :
    parseF f (strm (t :: T)) = stmt_listF f (cf (t :: T) [] []) := by
  obtain ⟨⟨h1, h2⟩, _⟩ := posZero_cons.mp h
  rw [parseF]
  rw [show nextToken (initState (strm (t :: T))) = .ok (cf (t :: T) [] []) () by
    simp [nextToken, initState, strm, cf, h1, h2]]
  rw [PRes.bind_ok]

/-- Claim C2: for every identifier `x`, every expression `E` all of whose
identifiers are defined in the current symbol table, and any context
(symbol table `env`, lines `out` already printed), running the two
statements `x = E` then `print x` emits exactly the same output as running
the single statement `print E`: both append the one line `natToBin v` where
`v` is `E`'s value; the first run additionally stores `v` under `x`. -/
theorem claim_C2_assign_print (x : String) (e : BExpr) (env : List (String × Nat)) (v : Nat)
    (out : List String) (f : Nat) (hv : evalB env e = some v) (hf : needE e + 6 ≤ f) :
    stmt_listF f
        (cf (tk .kid x :: tk .keq ("=") :: (rendE e ++ [tk .kprint ("print"), tk .kid x]))
          env out)
      = .ok (cf [] (setVar env x v) (out ++ [natToBin v])) () ∧
    stmt_listF f (cf (tk .kprint ("print") :: rendE e) env out)
      = .ok (cf [] env (out ++ [natToBin v])) () := by
  have hne : 4 ≤ needE e := needE_ge e
  obtain ⟨g, rfl⟩ : ∃ g, f = g + 1 := ⟨f - 1, by omega⟩
  obtain ⟨g1, rfl⟩ : ∃ g1, g = g1 + 1 := ⟨g - 1, by omega⟩
  obtain ⟨g2, rfl⟩ : ∃ g2, g1 = g2 + 1 := ⟨g1 - 1, by omega⟩
  constructor
  · -- x = E ; print x
    rw [stmt_list_step _ _ _ _ _ (Or.inl rfl),
      stmt_assign_step _ x _ env out
        (by rw [posZero_append, posZero_cons, posZero_cons]
            exact ⟨posZero_rendE e, posZero_tk _ _, posZero_tk _ _, posZero_nil⟩),
      (rend_correct e).1 (g2+1) env v [tk .kprint ("print"), tk .kid x] out hv (by omega)
        (by rw [posZero_cons, posZero_cons]
            exact ⟨posZero_tk _ _, posZero_tk _ _, posZero_nil⟩)
        (by simp [restOK, headIn, tk_kind]),
      PRes.bind_ok, vars_step, PRes.bind_ok,
      stmt_list_step _ _ _ _ _ (Or.inr rfl),
      stmt_print_step _ [tk .kid x] (setVar env x v) out
        (by rw [posZero_cons]; exact ⟨posZero_tk _ _, posZero_nil⟩),
      show [tk .kid x] = rendE (.var x) ++ ([] : List Token) by simp [rendE],
      (rend_correct (.var x)).1 g2 (setVar env x v) v [] out
        (by simpa [evalB] using lookup_setVar env x v)
        (by simp [needE]; omega) posZero_nil trivial,
      PRes.bind_ok, out_step, PRes.bind_ok, stmt_list_nil]
  · -- print E
    rw [stmt_list_step _ _ _ _ _ (Or.inr rfl),
      stmt_print_step _ (rendE e) env out (posZero_rendE e),
      ← List.append_nil (rendE e),
      (rend_correct e).1 (g2+1) env v [] out hv (by omega) posZero_nil trivial,
      PRes.bind_ok, out_step, PRes.bind_ok, stmt_list_nil]

theorem land_foldl (a b : Nat) (l : List String) :
    a &&& (l.foldl (fun acc x => acc &&& binVal x) b)
      = l.foldl (fun acc x => acc &&& binVal x) (a &&& b) := by
  induction l generalizing b with
  | nil => rfl
  | cons c t ih => simp only [List.foldl_cons]; rw [ih, ← Nat.land_assoc]

theorem lor_foldl (a b : Nat) (l : List String) :
    a ||| (l.foldl (fun acc x => acc ||| binVal x) b)
      = l.foldl (fun acc x => acc ||| binVal x) (a ||| b) := by
  induction l generalizing b with
  | nil => rfl
  | cons c t ih => simp only [List.foldl_cons]; rw [ih, ← Nat.lor_assoc]

theorem xor_foldl (a b : Nat) (l : List String) :
    a ^^^ (l.foldl (fun acc x => acc ^^^ binVal x) b)
      = l.foldl (fun acc x => acc ^^^ binVal x) (a ^^^ b) := by
  induction l generalizing b with
  | nil => rfl
  | cons c t ih => simp only [List.foldl_cons]; rw [ih, ← Nat.xor_assoc]

theorem headIn_chainT (k : Kind) (w : String) (xs : List String) (ks : List Kind)
    (hk : k ∈ ks) : headIn (chainT k w xs) ks := by
  cases xs with
  | nil => trivial
  | cons x r => simpa [chainT, headIn, tk_kind] using hk

theorem atom_tail_chain (xs : List String) :
    ∀ f w env out, xs.length + 2 ≤ f →
      atom_tailF f w (cf (chainT .kand ("and") xs) env out)
        = .ok (cf [] env out) (xs.foldl (fun acc x => acc &&& binVal x) w) := by
  induction xs with
  | nil =>
      intro f w env out hf
      simpa [chainT] using atom_tail_eps f w [] env out (by omega) trivial
  | cons x r ih =>
      intro f w env out hf
      obtain ⟨g, rfl⟩ : ∃ g, f = g + 1 := ⟨f - 1, by omega⟩
      rw [show chainT .kand ("and") (x :: r)
          = tk .kand ("and") :: (tk .kbin x :: chainT .kand ("and") r) from rfl]
      rw [atom_tailF, atom_tailBody]
      simp only [cf_la_cons, tk_kind]
      rw [if_true,
        pmatch_cf_k .kand ("and") (tk .kbin x :: chainT .kand ("and") r) env out
          (by rw [posZero_cons]; exact ⟨posZero_tk _ _, posZero_chainT _ _ _⟩),
        PRes.bind_ok,
        atom_lit x g env (chainT .kand ("and") r) out
          (by have := List.length_cons x r; omega) (posZero_chainT _ _ _),
        PRes.bind_ok,
        ih g (binVal x) env out (by simp only [List.length_cons] at hf; omega),
        PRes.bind_ok, List.foldl_cons, land_foldl]

theorem factor_tail_chain (xs : List String) :
    ∀ f w env out, xs.length + 4 ≤ f →
      factor_tailF f w (cf (chainT .kor ("or") xs) env out)
        = .ok (cf [] env out) (xs.foldl (fun acc x => acc ||| binVal x) w) := by
  induction xs with
  | nil =>
      intro f w env out hf
      simpa [chainT] using factor_tail_eps f w [] env out (by omega) trivial
  | cons x r ih =>
      intro f w env out hf
      obtain ⟨g, rfl⟩ : ∃ g, f = g + 1 := ⟨f - 1, by omega⟩
      obtain ⟨g1, rfl⟩ : ∃ g1, g = g1 + 1 :=
        ⟨g - 1, by simp only [List.length_cons] at hf; omega⟩
      rw [show chainT .kor ("or") (x :: r)
          = tk .kor ("or") :: (tk .kbin x :: chainT .kor ("or") r) from rfl]
      rw [factor_tailF, factor_tailBody]
      simp only [cf_la_cons, tk_kind]
      rw [if_true,
        pmatch_cf_k .kor ("or") (tk .kbin x :: chainT .kor ("or") r) env out
          (by rw [posZero_cons]; exact ⟨posZero_tk _ _, posZero_chainT _ _ _⟩),
        PRes.bind_ok,
        factorF, factorBody,
        if_pos (Or.inr (Or.inr (show (cf (tk .kbin x :: chainT .kor ("or") r) env out).la
          = some Kind.kbin from rfl))),
        atom_lit x g1 env (chainT .kor ("or") r) out
          (by simp only [List.length_cons] at hf; omega) (posZero_chainT _ _ _),
        PRes.bind_ok,
        atom_tail_eps g1 (binVal x) (chainT .kor ("or") r) env out
          (by simp only [List.length_cons] at hf; omega)
          (headIn_chainT _ _ _ _ (by decide)),
        PRes.bind_ok,
        ih (g1+1) (binVal x) env out (by simp only [List.length_cons] at hf; omega),
        PRes.bind_ok, List.foldl_cons, lor_foldl]

theorem term_tail_chain (xs : List String) :
    ∀ f w env out, xs.length + 5 ≤ f →
      term_tailF f w (cf (chainT .kxor ("xor") xs) env out)
        = .ok (cf [] env out) (xs.foldl (fun acc x => acc ^^^ binVal x) w) := by
  induction xs with
  | nil =>
      intro f w env out hf
      simpa [chainT] using term_tail_eps f w [] env out (by omega) trivial
  | cons x r ih =>
      intro f w env out hf
      obtain ⟨g, rfl⟩ : ∃ g, f = g + 1 := ⟨f - 1, by omega⟩
      obtain ⟨g1, rfl⟩ : ∃ g1, g = g1 + 1 :=
        ⟨g - 1, by simp only [List.length_cons] at hf; omega⟩
      obtain ⟨g2, rfl⟩ : ∃ g2, g1 = g2 + 1 :=
        ⟨g1 - 1, by simp only [List.length_cons] at hf; omega⟩
      rw [show chainT .kxor ("xor") (x :: r)
          = tk .kxor ("xor") :: (tk .kbin x :: chainT .kxor ("xor") r) from rfl]
      rw [term_tailF, term_tailBody]
      simp only [cf_la_cons, tk_kind]
      rw [if_true,
        pmatch_cf_k .kxor ("xor") (tk .kbin x :: chainT .kxor ("xor") r) env out
          (by rw [posZero_cons]; exact ⟨posZero_tk _ _, posZero_chainT _ _ _⟩),
        PRes.bind_ok,
        termF, termBody,
        if_pos (Or.inr (Or.inr (show (cf (tk .kbin x :: chainT .kxor ("xor") r) env out).la
          = some Kind.kbin from rfl))),
        factorF, factorBody,
        if_pos (Or.inr (Or.inr (show (cf (tk .kbin x :: chainT .kxor ("xor") r) env out).la
          = some Kind.kbin from rfl))),
        atom_lit x g2 env (chainT .kxor ("xor") r) out
          (by simp only [List.length_cons] at hf; omega) (posZero_chainT _ _ _),
        PRes.bind_ok,
        atom_tail_eps g2 (binVal x) (chainT .kxor ("xor") r) env out
          (by simp only [List.length_cons] at hf; omega)
          (headIn_chainT _ _ _ _ (by decide)),
        PRes.bind_ok,
        factor_tail_eps (g2+1) (binVal x) (chainT .kxor ("xor") r) env out
          (by simp only [List.length_cons] at hf; omega)
          (headIn_chainT _ _ _ _ (by decide)),
        PRes.bind_ok,
        ih (g2+2) (binVal x) env out (by simp only [List.length_cons] at hf; omega),
        PRes.bind_ok, List.foldl_cons, xor_foldl]

theorem parse_print (f : Nat) (T : List Token) (hz : posZero T) :
    parseF (f+1+1) (strm (tk .kprint ("print") :: T)) =
      ((exprF f (cf T [] [])).bind fun s2 v =>
        .ok { s2 with out := s2.out ++ [natToBin v] } ()).bind fun s1 _ =>
          stmt_listF (f+1) s1 := by
  rw [parse_start _ _ _ (by rw [posZero_cons]; exact ⟨posZero_tk _ _, hz⟩),
    stmt_list_step _ _ _ _ _ (Or.inr rfl),
    stmt_print_step _ T [] [] hz]

/-- Claim C4: `and`, `or`, `xor` (python `&`, `|`, `^`) are associative and
commutative on Values; consequently the right-recursive accumulation of the
`*_tail` procedures (each tail combines its inherited left operand with the
full right-recursive result) produces on every flat operator chain
`print x₀ op x₁ op … op xₙ` exactly the strict left-to-right fold of the
operand values; concretely `print 1 xor 1 xor 1` emits `1`. -/
theorem claim_C4_assoc_comm_fold :
    (∀ a b c : Nat, (a &&& b) &&& c = a &&& (b &&& c) ∧ a &&& b = b &&& a) ∧
    (∀ a b c : Nat, (a ||| b) ||| c = a ||| (b ||| c) ∧ a ||| b = b ||| a) ∧
    (∀ a b c : Nat, (a ^^^ b) ^^^ c = a ^^^ (b ^^^ c) ∧ a ^^^ b = b ^^^ a) ∧
    (∀ (x : String) (xs : List String) (f : Nat), xs.length + 9 ≤ f →
      run f (strm (tk .kprint ("print") :: tk .kbin x :: chainT .kand ("and") xs))
        = some [natToBin (xs.foldl (fun acc y => acc &&& binVal y) (binVal x))]) ∧
    (∀ (x : String) (xs : List String) (f : Nat), xs.length + 9 ≤ f →
      run f (strm (tk .kprint ("print") :: tk .kbin x :: chainT .kor ("or") xs))
        = some [natToBin (xs.foldl (fun acc y => acc ||| binVal y) (binVal x))]) ∧
    (∀ (x : String) (xs : List String) (f : Nat), xs.length + 9 ≤ f →
      run f (strm (tk .kprint ("print") :: tk .kbin x :: chainT .kxor ("xor") xs))
        = some [natToBin (xs.foldl (fun acc y => acc ^^^ binVal y) (binVal x))]) ∧
    run 30 (strm [tk .kprint ("print"), tk .kbin ("1"), tk .kxor ("xor"), tk .kbin ("1"),
        tk .kxor ("xor"), tk .kbin ("1")])
      = some [("1")] := by
  refine ⟨fun a b c => ⟨Nat.land_assoc a b c, Nat.land_comm a b⟩,
    fun a b c => ⟨Nat.lor_assoc a b c, Nat.lor_comm a b⟩,
    fun a b c => ⟨Nat.xor_assoc a b c, Nat.xor_comm a b⟩, ?_, ?_, ?_, rfl⟩
  · intro x xs f hf
    obtain ⟨g1, rfl⟩ : ∃ g1, f = g1 + 1 + 1 := ⟨f - 2, by omega⟩
    obtain ⟨a, rfl⟩ : ∃ a, g1 = a + 1 := ⟨g1 - 1, by omega⟩
    obtain ⟨b, rfl⟩ : ∃ b, a = b + 1 := ⟨a - 1, by omega⟩
    obtain ⟨c, rfl⟩ : ∃ c, b = c + 1 := ⟨b - 1, by omega⟩
    have hp : parseF (c+1+1+1+1+1) (strm (tk .kprint ("print") :: tk .kbin x ::
        chainT .kand ("and") xs)) =
        .ok (cf [] [] [natToBin (xs.foldl (fun acc y => acc &&& binVal y) (binVal x))]) () := by
      rw [parse_print (c+1+1+1) (tk .kbin x :: chainT .kand ("and") xs)
          (by rw [posZero_cons]; exact ⟨posZero_tk _ _, posZero_chainT _ _ _⟩),
        exprF, exprBody,
        if_pos (Or.inr (Or.inr (show (cf (tk .kbin x :: chainT .kand ("and") xs) [] []).la
          = some Kind.kbin from rfl))),
        termF, termBody,
        if_pos (Or.inr (Or.inr (show (cf (tk .kbin x :: chainT .kand ("and") xs) [] []).la
          = some Kind.kbin from rfl))),
        factorF, factorBody,
        if_pos (Or.inr (Or.inr (show (cf (tk .kbin x :: chainT .kand ("and") xs) [] []).la
          = some Kind.kbin from rfl))),
        atom_lit x c [] (chainT .kand ("and") xs) [] (by omega) (posZero_chainT _ _ _),
        PRes.bind_ok,
        atom_tail_chain xs c (binVal x) [] [] (by omega),
        PRes.bind_ok,
        factor_tail_eps (c+1) _ [] [] [] (by omega) trivial,
        PRes.bind_ok,
        term_tail_eps (c+1+1) _ [] [] [] (by omega) trivial,
        PRes.bind_ok, out_step, PRes.bind_ok, List.nil_append, stmt_list_nil]
    unfold run
    rw [hp]
    rfl
  · intro x xs f hf
    obtain ⟨g1, rfl⟩ : ∃ g1, f = g1 + 1 + 1 := ⟨f - 2, by omega⟩
    obtain ⟨a, rfl⟩ : ∃ a, g1 = a + 1 := ⟨g1 - 1, by omega⟩
    obtain ⟨b, rfl⟩ : ∃ b, a = b + 1 := ⟨a - 1, by omega⟩
    obtain ⟨c, rfl⟩ : ∃ c, b = c + 1 := ⟨b - 1, by omega⟩
    have hp : parseF (c+1+1+1+1+1) (strm (tk .kprint ("print") :: tk .kbin x ::
        chainT .kor ("or") xs)) =
        .ok (cf [] [] [natToBin (xs.foldl (fun acc y => acc ||| binVal y) (binVal x))]) () := by
      rw [parse_print (c+1+1+1) (tk .kbin x :: chainT .kor ("or") xs)
          (by rw [posZero_cons]; exact ⟨posZero_tk _ _, posZero_chainT _ _ _⟩),
        exprF, exprBody,
        if_pos (Or.inr (Or.inr (show (cf (tk .kbin x :: chainT .kor ("or") xs) [] []).la
          = some Kind.kbin from rfl))),
        termF, termBody,
        if_pos (Or.inr (Or.inr (show (cf (tk .kbin x :: chainT .kor ("or") xs) [] []).la
          = some Kind.kbin from rfl))),
        factorF, factorBody,
        if_pos (Or.inr (Or.inr (show (cf (tk .kbin x :: chainT .kor ("or") xs) [] []).la
          = some Kind.kbin from rfl))),
        atom_lit x c [] (chainT .kor ("or") xs) [] (by omega) (posZero_chainT _ _ _),
        PRes.bind_ok,
        atom_tail_eps c _ (chainT .kor ("or") xs) [] [] (by omega)
          (headIn_chainT _ _ _ _ (by decide)),
        PRes.bind_ok,
        factor_tail_chain xs (c+1) (binVal x) [] [] (by omega),
        PRes.bind_ok,
        term_tail_eps (c+1+1) _ [] [] [] (by omega) trivial,
        PRes.bind_ok, out_step, PRes.bind_ok, List.nil_append, stmt_list_nil]
    unfold run
    rw [hp]
    rfl
  · intro x xs f hf
    obtain ⟨g1, rfl⟩ : ∃ g1, f = g1 + 1 + 1 := ⟨f - 2, by omega⟩
    obtain ⟨a, rfl⟩ : ∃ a, g1 = a + 1 := ⟨g1 - 1, by omega⟩
    obtain ⟨b, rfl⟩ : ∃ b, a = b + 1 := ⟨a - 1, by omega⟩
    obtain ⟨c, rfl⟩ : ∃ c, b = c + 1 := ⟨b - 1, by omega⟩
    have hp : parseF (c+1+1+1+1+1) (strm (tk .kprint ("print") :: tk .kbin x ::
        chainT .kxor ("xor") xs)) =
        .ok (cf [] [] [natToBin (xs.foldl (fun acc y => acc ^^^ binVal y) (binVal x))]) () := by
      rw [parse_print (c+1+1+1) (tk .kbin x :: chainT .kxor ("xor") xs)
          (by rw [posZero_cons]; exact ⟨posZero_tk _ _, posZero_chainT _ _ _⟩),
        exprF, exprBody,
        if_pos (Or.inr (Or.inr (show (cf (tk .kbin x :: chainT .kxor ("xor") xs) [] []).la
          = some Kind.kbin from rfl))),
        termF, termBody,
        if_pos (Or.inr (Or.inr (show (cf (tk .kbin x :: chainT .kxor ("xor") xs) [] []).la
          = some Kind.kbin from rfl))),
        factorF, factorBody,
        if_pos (Or.inr (Or.inr (show (cf (tk .kbin x :: chainT .kxor ("xor") xs) [] []).la
          = some Kind.kbin from rfl))),
        atom_lit x c [] (chainT .kxor ("xor") xs) [] (by omega) (posZero_chainT _ _ _),
        PRes.bind_ok,
        atom_tail_eps c _ (chainT .kxor ("xor") xs) [] [] (by omega)
          (headIn_chainT _ _ _ _ (by decide)),
        PRes.bind_ok,
        factor_tail_eps (c+1) _ (chainT .kxor ("xor") xs) [] [] (by omega)
          (headIn_chainT _ _ _ _ (by decide)),
        PRes.bind_ok,
        term_tail_chain xs (c+1+1) (binVal x) [] [] (by omega),
        PRes.bind_ok, out_step, PRes.bind_ok, List.nil_append, stmt_list_nil]
    unfold run
    rw [hp]
    rfl

/-- Claim C3: operator precedence is parenthesization > `and` > `or` > `xor`.
For all binary literals `A`, `B`, `C`: `print A or B and C` evaluates as
`A or (B and C)`, `print A and B or C` as `(A and B) or C`, `print A xor B or C`
as `A xor (B or C)`, and an explicit parenthesization `print (A xor B) and C`
overrides all of this; concretely `print 1 or 0 and 0` and `print 1 and 0 or 1`
both emit `1`. -/
theorem claim_C3_precedence :
    (∀ A B C : String,
      run 30 (strm [tk .kprint ("print"), tk .kbin A, tk .kor ("or"), tk .kbin B,
          tk .kand ("and"), tk .kbin C])
        = some [natToBin (binVal A ||| (binVal B &&& binVal C))]) ∧
    (∀ A B C : String,
      run 30 (strm [tk .kprint ("print"), tk .kbin A, tk .kand ("and"), tk .kbin B,
          tk .kor ("or"), tk .kbin C])
        = some [natToBin ((binVal A &&& binVal B) ||| binVal C)]) ∧
    (∀ A B C : String,
      run 30 (strm [tk .kprint ("print"), tk .kbin A, tk .kxor ("xor"), tk .kbin B,
          tk .kor ("or"), tk .kbin C])
        = some [natToBin (binVal A ^^^ (binVal B ||| binVal C))]) ∧
    (∀ A B C : String,
      run 30 (strm [tk .kprint ("print"), tk .klp ("("), tk .kbin A, tk .kxor ("xor"),
          tk .kbin B, tk .krp (")"), tk .kand ("and"), tk .kbin C])
        = some [natToBin ((binVal A ^^^ binVal B) &&& binVal C)]) ∧
    run 30 (strm [tk .kprint ("print"), tk .kbin ("1"), tk .kor ("or"), tk .kbin ("0"),
        tk .kand ("and"), tk .kbin ("0")])
      = some [("1")] ∧
    run 30 (strm [tk .kprint ("print"), tk .kbin ("1"), tk .kand ("and"), tk .kbin ("0"),
        tk .kor ("or"), tk .kbin ("1")])
      = some [("1")] :=
  ⟨fun _ _ _ => rfl, fun _ _ _ => rfl, fun _ _ _ => rfl, fun _ _ _ => rfl, rfl, rfl⟩

/-- Claim C5: for every valid binary literal `L` (a nonempty run of the digits
0 and 1), `print L` emits exactly one line, the minimal binary digit string of
`L`'s base-2 value: its digits are binary, its base-2 value is `L`'s value,
the value zero prints as the single digit `0`, and a nonzero value prints with
no leading zero (its first digit is `1`). -/
theorem claim_C5_print_literal (L : String)
    (_hL : L.data ≠ [] ∧ ∀ c ∈ L.data, c = '0' ∨ c = '1') :
    run 10 (strm [tk .kprint ("print"), tk .kbin L]) = some [natToBin (binVal L)] ∧
    (natToBin (binVal L)).data ≠ [] ∧
    (∀ c ∈ (natToBin (binVal L)).data, c = '0' ∨ c = '1') ∧
    binVal (natToBin (binVal L)) = binVal L ∧
    (binVal L = 0 → natToBin (binVal L) = ("0")) ∧
    (binVal L ≠ 0 → (natToBin (binVal L)).data.head? = some '1') :=
  ⟨rfl, natToBin_ne_nil _, natToBin_chars _, binVal_natToBin _,
    fun h => by rw [h]; rfl, fun h => natToBin_head _ h⟩

/-- Claim C6: in the evaluating variant, a statement `print x` whose
identifier `x` has no entry in the symbol table aborts with the
undefined-variable `ParseError` (message `in atom: unrecognized variable
name`), raised from `atom` after the identifier token is consumed, and the
output is exactly as it was before the statement: no line is emitted for the
failing statement. -/
theorem claim_C6_undefined_variable (x : String) (env : List (String × Nat))
    (out : List String) (f : Nat) (hx : lookupVar env x = none) (hf : 6 ≤ f) :
    stmt_listF f (cf [tk .kprint ("print"), tk .kid x] env out)
      = .err (cf [] env out) (.parse uvMsg) ∧
    (cf [] env out).out = out := by
  obtain ⟨a, rfl⟩ : ∃ a, f = a + 1 := ⟨f - 1, by omega⟩
  obtain ⟨b, rfl⟩ : ∃ b, a = b + 1 := ⟨a - 1, by omega⟩
  obtain ⟨c, rfl⟩ : ∃ c, b = c + 1 := ⟨b - 1, by omega⟩
  obtain ⟨d, rfl⟩ : ∃ d, c = d + 1 := ⟨c - 1, by omega⟩
  obtain ⟨e, rfl⟩ : ∃ e, d = e + 1 := ⟨d - 1, by omega⟩
  obtain ⟨g, rfl⟩ : ∃ g, e = g + 1 := ⟨e - 1, by omega⟩
  refine ⟨?_, cf_out _ _ _⟩
  rw [stmt_list_step _ _ _ _ _ (Or.inr rfl),
    stmt_print_step _ [tk .kid x] env out
      (by rw [posZero_cons]; exact ⟨posZero_tk _ _, posZero_nil⟩),
    exprF, exprBody,
    if_pos (Or.inr (Or.inl (show (cf [tk .kid x] env out).la = some Kind.kid from rfl))),
    termF, termBody,
    if_pos (Or.inr (Or.inl (show (cf [tk .kid x] env out).la = some Kind.kid from rfl))),
    factorF, factorBody,
    if_pos (Or.inr (Or.inl (show (cf [tk .kid x] env out).la = some Kind.kid from rfl))),
    atomF, atomBody]
  simp only [cf_la_cons, cf_val_cons, tk_kind, tk_lexeme]
  rw [if_neg (show ¬ (some Kind.kid = some Kind.klp) by decide), if_true,
    pmatch_cf_k .kid x [] env out posZero_nil, PRes.bind_ok, cf_vars, hx]
  rfl

/-- Claim C7 (code bug): the `ParseError` raised by `factor_tail` on a
lookahead outside its FIRST and FOLLOW sets (for instance `=`) carries the
message `in term_tail: "or", ")", "xor", "id" or "print" expected` — it names
`term_tail`, not `factor_tail`, in both the evaluating and the recognizing
variant, contradicting the rule that every nonterminal's error message names
that nonterminal (which every other procedure obeys). -/
theorem claim_C7_factor_tail_misnamed :
    factor_tailF 1 0 (PState.mk (some Kind.keq) ("=") [] [] [] 0 0)
      = .err (PState.mk (some Kind.keq) ("=") [] [] [] 0 0)
          (.parse ("in term_tail: \"or\", \")\", \"xor\", \"id\" or \"print\" expected")) ∧
    Rec.factor_tailF 1 (PState.mk (some Kind.keq) ("=") [] [] [] 0 0)
      = .err (PState.mk (some Kind.keq) ("=") [] [] [] 0 0)
          (.parse ("in term_tail: \"or\", \")\", \"xor\", \"id\" or \"print\" expected")) :=
  ⟨rfl, rfl⟩

/-- Claim C10: whenever `match(expected)` is called with a lookahead whose
kind differs from the expected kind, it raises
`ParseError('found {la} instead of {expected}')` and returns with the entire
parser state — lookahead, current lexeme, remaining input, symbol table,
output, position — exactly as it was; no token is consumed.  (`match` is
textually identical in `runner.py` and `scanner.py` and both are embedded by
the single `pmatch`.) -/
theorem claim_C10_match_mismatch (k : Kind) (s : PState) (h : ¬ s.la = some k) :
    pmatch k s
      = .err s (.parse (("found ") ++ laStr s.la ++ (" instead of ") ++ kindStr k)) :=
  pmatch_no h

theorem presVO_ok {s p : PState} {v : α} (h1 : p.vars = s.vars) (h2 : p.out = s.out) :
    presVO s (PRes.ok p v) := ⟨h1, h2⟩

theorem presVO_nextToken (s : PState) : presVO s (nextToken s) := by
  rcases s with ⟨la, val, ts, vars, out, line, col⟩
  cases ts with
  | nil => exact ⟨rfl, rfl⟩
  | cons tr r =>
      cases tr with
      | tok t => exact ⟨rfl, rfl⟩
      | fail l c => exact ⟨rfl, rfl⟩

theorem presVO_pmatch (k : Kind) (s : PState) : presVO s (pmatch k s) := by
  rw [pmatch]
  by_cases h : s.la = some k
  · rw [if_pos h]
    exact presVO_nextToken s
  · rw [if_neg h]
    exact ⟨rfl, rfl⟩

theorem presVO_bind {α β : Type} {s : PState} {X : PRes α} {g : PState → α → PRes β}
    (h1 : presVO s X) (h2 : ∀ p v, X = .ok p v → presVO p (g p v)) :
    presVO s (X.bind g) := by
  cases X with
  | ok p v =>
      have hp := h2 p v rfl
      have h1' : p.vars = s.vars ∧ p.out = s.out := h1
      rw [PRes.bind]
      cases hg : g p v with
      | ok q w =>
          rw [hg] at hp
          exact ⟨hp.1.trans h1'.1, hp.2.trans h1'.2⟩
      | err q e =>
          rw [hg] at hp
          exact ⟨hp.1.trans h1'.1, hp.2.trans h1'.2⟩
      | fuel => trivial
  | err p e => exact h1
  | fuel => trivial

theorem frame_expr : ∀ f : Nat,
    (∀ s, presVO s (atomF f s)) ∧
    (∀ w s, presVO s (atom_tailF f w s)) ∧
    (∀ s, presVO s (factorF f s)) ∧
    (∀ w s, presVO s (factor_tailF f w s)) ∧
    (∀ s, presVO s (termF f s)) ∧
    (∀ w s, presVO s (term_tailF f w s)) ∧
    (∀ s, presVO s (exprF f s)) := by
  intro f
  induction f with
  | zero =>
      exact ⟨fun s => trivial, fun w s => trivial, fun s => trivial, fun w s => trivial,
        fun s => trivial, fun w s => trivial, fun s => trivial⟩
  | succ f ih =>
      obtain ⟨ihA, ihAT, ihF, ihFT, ihT, ihTT, ihE⟩ := ih
      have hA : ∀ s, presVO s (atomF (f+1) s) := by
        intro s
        rw [atomF, atomBody]
        by_cases h1 : s.la = some Kind.klp
        · rw [if_pos h1]
          refine presVO_bind (presVO_pmatch _ s) fun p _ _ => ?_
          refine presVO_bind (ihE p) fun q v _ => ?_
          refine presVO_bind (presVO_pmatch _ q) fun r _ _ => ?_
          exact ⟨rfl, rfl⟩
        rw [if_neg h1]
        by_cases h2 : s.la = some Kind.kid
        · rw [if_pos h2]
          refine presVO_bind (presVO_pmatch _ s) fun p _ _ => ?_
          cases lookupVar p.vars s.val with
          | none => exact ⟨rfl, rfl⟩
          | some v => exact ⟨rfl, rfl⟩
        rw [if_neg h2]
        by_cases h3 : s.la = some Kind.kbin
        · rw [if_pos h3]
          refine presVO_bind (presVO_pmatch _ s) fun p _ _ => ?_
          exact ⟨rfl, rfl⟩
        rw [if_neg h3]
        exact ⟨rfl, rfl⟩
      have hAT : ∀ w s, presVO s (atom_tailF (f+1) w s) := by
        intro w s
        rw [atom_tailF, atom_tailBody]
        by_cases h1 : s.la = some Kind.kand
        · rw [if_pos h1]
          refine presVO_bind (presVO_pmatch _ s) fun p _ _ => ?_
          refine presVO_bind (ihA p) fun q v _ => ?_
          refine presVO_bind (ihAT v q) fun r t _ => ?_
          exact ⟨rfl, rfl⟩
        rw [if_neg h1]
        by_cases h2 : s.la = some Kind.krp ∨ s.la = some Kind.kor ∨ s.la = some Kind.kxor ∨
            s.la = some Kind.kid ∨ s.la = some Kind.kprint ∨ s.la = none
        · rw [if_pos h2]; exact ⟨rfl, rfl⟩
        · rw [if_neg h2]; exact ⟨rfl, rfl⟩
      have hF : ∀ s, presVO s (factorF (f+1) s) := by
        intro s
        rw [factorF, factorBody]
        by_cases h1 : s.la = some Kind.klp ∨ s.la = some Kind.kid ∨ s.la = some Kind.kbin
        · rw [if_pos h1]
          exact presVO_bind (ihA s) fun p v _ => ihAT v p
        · rw [if_neg h1]; exact ⟨rfl, rfl⟩
      have hFT : ∀ w s, presVO s (factor_tailF (f+1) w s) := by
        intro w s
        rw [factor_tailF, factor_tailBody]
        by_cases h1 : s.la = some Kind.kor
        · rw [if_pos h1]
          refine presVO_bind (presVO_pmatch _ s) fun p _ _ => ?_
          refine presVO_bind (ihF p) fun q v _ => ?_
          refine presVO_bind (ihFT v q) fun r t _ => ?_
          exact ⟨rfl, rfl⟩
        rw [if_neg h1]
        by_cases h2 : s.la = some Kind.krp ∨ s.la = some Kind.kxor ∨
            s.la = some Kind.kid ∨ s.la = some Kind.kprint ∨ s.la = none
        · rw [if_pos h2]; exact ⟨rfl, rfl⟩
        · rw [if_neg h2]; exact ⟨rfl, rfl⟩
      have hT : ∀ s, presVO s (termF (f+1) s) := by
        intro s
        rw [termF, termBody]
        by_cases h1 : s.la = some Kind.klp ∨ s.la = some Kind.kid ∨ s.la = some Kind.kbin
        · rw [if_pos h1]
          exact presVO_bind (ihF s) fun p v _ => ihFT v p
        · rw [if_neg h1]; exact ⟨rfl, rfl⟩
      have hTT : ∀ w s, presVO s (term_tailF (f+1) w s) := by
        intro w s
        rw [term_tailF, term_tailBody]
        by_cases h1 : s.la = some Kind.kxor
        · rw [if_pos h1]
          refine presVO_bind (presVO_pmatch _ s) fun p _ _ => ?_
          refine presVO_bind (ihT p) fun q v _ => ?_
          refine presVO_bind (ihTT v q) fun r t _ => ?_
          exact ⟨rfl, rfl⟩
        rw [if_neg h1]
        by_cases h2 : s.la = some Kind.krp ∨ s.la = some Kind.kid ∨
            s.la = some Kind.kprint ∨ s.la = none
        · rw [if_pos h2]; exact ⟨rfl, rfl⟩
        · rw [if_neg h2]; exact ⟨rfl, rfl⟩
      have hE : ∀ s, presVO s (exprF (f+1) s) := by
        intro s
        rw [exprF, exprBody]
        by_cases h1 : s.la = some Kind.klp ∨ s.la = some Kind.kid ∨ s.la = some Kind.kbin
        · rw [if_pos h1]
          exact presVO_bind (ihT s) fun p v _ => ihTT v p
        · rw [if_neg h1]; exact ⟨rfl, rfl⟩
      exact ⟨hA, hAT, hF, hFT, hT, hTT, hE⟩

theorem presVO_err_out {α : Type} {s p : PState} {X : PRes α} {e : Err}
    (h : presVO s X) (he : X = .err p e) : p.vars = s.vars ∧ p.out = s.out := by
  rw [he] at h
  exact h

theorem presVO_okk_out {α : Type} {s p : PState} {X : PRes α} {v : α}
    (h : presVO s X) (he : X = .ok p v) : p.vars = s.vars ∧ p.out = s.out := by
  rw [he] at h
  exact h

theorem outGrow_err_of {α : Type} {s p : PState} {e : Err} (h : p.out = s.out) :
    outGrow s (PRes.err p e : PRes α) :=
  ⟨[], by simp [h], fun y hy => nomatch hy⟩

theorem outGrow_ok_of {α : Type} {s p : PState} {v : α} (h : p.out = s.out) :
    outGrow s (PRes.ok p v) :=
  ⟨[], by simp [h], fun y hy => nomatch hy⟩

theorem outGrow_bind {α β : Type} {s : PState} {X : PRes α} {g : PState → α → PRes β}
    (h1 : outGrow s X) (h2 : ∀ p v, X = .ok p v → outGrow p (g p v)) :
    outGrow s (X.bind g) := by
  cases X with
  | ok p v =>
      obtain ⟨d1, hd1, hc1⟩ := h1
      have hg := h2 p v rfl
      rw [PRes.bind]
      cases hgg : g p v with
      | ok q w =>
          rw [hgg] at hg
          obtain ⟨d2, hd2, hc2⟩ := hg
          refine ⟨d1 ++ d2, ?_, ?_⟩
          · rw [hd2, hd1, List.append_assoc]
          · intro y hy
            rcases List.mem_append.mp hy with hy | hy
            · exact hc1 y hy
            · exact hc2 y hy
      | err q e =>
          rw [hgg] at hg
          obtain ⟨d2, hd2, hc2⟩ := hg
          refine ⟨d1 ++ d2, ?_, ?_⟩
          · rw [hd2, hd1, List.append_assoc]
          · intro y hy
            rcases List.mem_append.mp hy with hy | hy
            · exact hc1 y hy
            · exact hc2 y hy
      | fuel => trivial
  | err p e => exact h1
  | fuel => trivial

theorem stmt_effects (f : Nat) (s : PState) :
    outGrow s (stmtF f s) ∧
    (∀ p e, stmtF f s = .err p e → p.vars = s.vars ∧ p.out = s.out) := by
  cases f with
  | zero =>
      refine ⟨trivial, fun p e h => ?_⟩
      rw [stmtF] at h
      exact absurd h (by simp)
  | succ f =>
      rw [stmtF, stmtBody]
      by_cases h1 : s.la = some Kind.kid
      · rw [if_pos h1]
        cases hp1 : pmatch .kid s with
        | fuel =>
            simp only [PRes.bind]
            exact ⟨trivial, fun p e h => absurd h (by simp)⟩
        | err p1 e1 =>
            simp only [PRes.bind]
            have hpres := presVO_err_out (presVO_pmatch .kid s) hp1
            refine ⟨outGrow_err_of hpres.2, fun p e h => ?_⟩
            injection h with hA hB
            subst hA
            subst hB
            exact hpres
        | ok s1 u1 =>
            simp only [PRes.bind]
            have hpres1 := presVO_okk_out (presVO_pmatch .kid s) hp1
            cases hp2 : pmatch .keq s1 with
            | fuel =>
                simp only [PRes.bind]
                exact ⟨trivial, fun p e h => absurd h (by simp)⟩
            | err p2 e2 =>
                simp only [PRes.bind]
                have hpres2 := presVO_err_out (presVO_pmatch .keq s1) hp2
                refine ⟨outGrow_err_of (hpres2.2.trans hpres1.2), fun p e h => ?_⟩
                injection h with hA hB
                subst hA
                subst hB
                exact ⟨hpres2.1.trans hpres1.1, hpres2.2.trans hpres1.2⟩
            | ok s2 u2 =>
                simp only [PRes.bind]
                have hpres2 := presVO_okk_out (presVO_pmatch .keq s1) hp2
                cases he : exprF f s2 with
                | fuel =>
                    simp only [PRes.bind]
                    exact ⟨trivial, fun p e h => absurd h (by simp)⟩
                | err p3 e3 =>
                    simp only [PRes.bind]
                    have hpres3 := presVO_err_out ((frame_expr f).2.2.2.2.2.2 s2) he
                    refine ⟨outGrow_err_of
                        ((hpres3.2.trans hpres2.2).trans hpres1.2), fun p e h => ?_⟩
                    injection h with hA hB
                    subst hA
                    subst hB
                    exact ⟨(hpres3.1.trans hpres2.1).trans hpres1.1,
                      (hpres3.2.trans hpres2.2).trans hpres1.2⟩
                | ok s3 v =>
                    simp only [PRes.bind]
                    have hpres3 := presVO_okk_out ((frame_expr f).2.2.2.2.2.2 s2) he
                    refine ⟨outGrow_ok_of
                        (show ({ s3 with vars := setVar s3.vars s.val v } : PState).out = s.out
                          from (hpres3.2.trans hpres2.2).trans hpres1.2),
                      fun p e h => absurd h (by simp)⟩
      rw [if_neg h1]
      by_cases h2 : s.la = some Kind.kprint
      · rw [if_pos h2]
        cases hp1 : pmatch .kprint s with
        | fuel =>
            simp only [PRes.bind]
            exact ⟨trivial, fun p e h => absurd h (by simp)⟩
        | err p1 e1 =>
            simp only [PRes.bind]
            have hpres := presVO_err_out (presVO_pmatch .kprint s) hp1
            refine ⟨outGrow_err_of hpres.2, fun p e h => ?_⟩
            injection h with hA hB
            subst hA
            subst hB
            exact hpres
        | ok s1 u1 =>
            simp only [PRes.bind]
            have hpres1 := presVO_okk_out (presVO_pmatch .kprint s) hp1
            cases he : exprF f s1 with
            | fuel =>
                simp only [PRes.bind]
                exact ⟨trivial, fun p e h => absurd h (by simp)⟩
            | err p2 e2 =>
                simp only [PRes.bind]
                have hpres2 := presVO_err_out ((frame_expr f).2.2.2.2.2.2 s1) he
                refine ⟨outGrow_err_of (hpres2.2.trans hpres1.2), fun p e h => ?_⟩
                injection h with hA hB
                subst hA
                subst hB
                exact ⟨hpres2.1.trans hpres1.1, hpres2.2.trans hpres1.2⟩
            | ok s2 v =>
                simp only [PRes.bind]
                have hpres2 := presVO_okk_out ((frame_expr f).2.2.2.2.2.2 s1) he
                refine ⟨⟨[natToBin v], ?_, fun y hy => ⟨v, by simpa using hy⟩⟩,
                  fun p e h => absurd h (by simp)⟩
                show s2.out ++ [natToBin v] = s.out ++ [natToBin v]
                rw [hpres2.2.trans hpres1.2]
      rw [if_neg h2]
      refine ⟨outGrow_err_of rfl, fun p e h => ?_⟩
      injection h with hA hB
      subst hA
      subst hB
      exact ⟨rfl, rfl⟩

theorem stmt_list_outGrow : ∀ (f : Nat) (s : PState), outGrow s (stmt_listF f s) := by
  intro f
  induction f with
  | zero => intro s; trivial
  | succ f ih =>
      intro s
      rw [stmt_listF, stmt_listBody]
      by_cases h1 : s.la = some Kind.kid ∨ s.la = some Kind.kprint
      · rw [if_pos h1]
        exact outGrow_bind (stmt_effects f s).1 (fun p v _ => ih p)
      rw [if_neg h1]
      by_cases h2 : s.la = none
      · rw [if_pos h2]
        exact outGrow_ok_of rfl
      · rw [if_neg h2]
        exact outGrow_err_of rfl

/-- Claim C8: when an error aborts a run, side effects of completed prior
statements are kept and the failing statement performs no partial side
effect: (1) a statement procedure that raises leaves the symbol table and the
printed output exactly as they were at its start (in particular an assignment
whose right-hand side fails does not touch the table); (2) across a whole
statement list the printed output only ever grows, each new line being the
binary rendering of a printed value (`outGrow`) — nothing is rolled back;
(3) concretely, in `print 1` followed by `print` and a scanner failure, the
fully parsed first statement has emitted its line `1` before the single
scanner diagnostic. -/
theorem claim_C8_no_rollback :
    (∀ f s p e, stmtF f s = .err p e → p.vars = s.vars ∧ p.out = s.out) ∧
    (∀ f s, outGrow s (stmt_listF f s)) ∧
    run 30 [TokRes.tok (tk .kprint ("print")), TokRes.tok (tk .kbin ("1")),
        TokRes.tok (tk .kprint ("print")), TokRes.fail 2 6]
      = some [("1"), ("Scanner Error: at line 2 char 7")] :=
  ⟨fun f s p e h => (stmt_effects f s).2 p e h, fun f s => stmt_list_outGrow f s, rfl⟩

/-- Claim C9: a failing run produces exactly one diagnostic line, appended
after the lines printed so far (all of which are binary value renderings, so
none of them is a diagnostic) and followed by nothing: on a scanner error the
line is `Scanner Error: at line L char C`, on a parse error it is
`Parser Error: <message> at line L char C`, and in both the reported column
is the internal 0-based column plus one. -/
theorem claim_C9_single_diagnostic (f : Nat) (q : TokSeq) (s : PState) (e : Err)
    (h : parseF f q = .err s e) :
    (∀ y ∈ s.out, ∃ v, y = natToBin v) ∧
    (e = .scan → run f q
      = some (s.out ++ [("Scanner Error: at line ") ++ toString s.line ++ (" char ")
          ++ toString (s.col + 1)])) ∧
    (∀ m, e = .parse m → run f q
      = some (s.out ++ [("Parser Error: ") ++ m ++ (" at line ") ++ toString s.line
          ++ (" char ") ++ toString (s.col + 1)])) := by
  refine ⟨?_, ?_, ?_⟩
  · rw [parseF] at h
    cases hn : nextToken (initState q) with
    | fuel =>
        rw [hn] at h
        exact absurd h (by simp [PRes.bind])
    | err p0 e0 =>
        rw [hn, PRes.bind_err] at h
        injection h with hA hB
        subst hA
        have := presVO_err_out (presVO_nextToken (initState q)) hn
        intro y hy
        rw [this.2] at hy
        exact absurd hy (by simp [initState])
    | ok s1 u1 =>
        rw [hn, PRes.bind_ok] at h
        have h1 := presVO_okk_out (presVO_nextToken (initState q)) hn
        have h2 := stmt_list_outGrow f s1
        rw [h] at h2
        obtain ⟨d, hd, hc⟩ := h2
        intro y hy
        rw [hd, h1.2] at hy
        refine hc y ?_
        simpa [initState] using hy
  · intro he
    subst he
    unfold run
    rw [h]
    rfl
  · intro m he
    subst he
    unfold run
    rw [h]
    rfl

theorem nextToken_upd (s : PState) (A : List (String × Nat)) (B : List String) :
    nextToken (updVO s A B) = mapRes A B (nextToken s) := by
  rcases s with ⟨la, val, ts, vars, out, line, col⟩
  cases ts with
  | nil => rfl
  | cons tr r =>
      cases tr with
      | tok t => rfl
      | fail l c => rfl

theorem pmatch_upd (k : Kind) (s : PState) (A : List (String × Nat)) (B : List String) :
    pmatch k (updVO s A B) = mapRes A B (pmatch k s) := by
  rw [pmatch, pmatch]
  rw [show (updVO s A B).la = s.la from rfl]
  by_cases h : s.la = some k
  · rw [if_pos h, if_pos h]
    exact nextToken_upd s A B
  · rw [if_neg h, if_neg h]
    rfl

theorem noUV_err_tr {α β : Type} {p : PState} {e : Err}
    (h : noUV (PRes.err p e : PRes α)) : noUV (PRes.err p e : PRes β) := by
  cases e with
  | scan => trivial
  | parse m => exact h

theorem noUV_bind {α β : Type} {X : PRes α} {g : PState → α → PRes β}
    (h : noUV (X.bind g)) : noUV X := by
  cases X with
  | ok p v => trivial
  | err p e => exact noUV_err_tr (by rwa [PRes.bind_err] at h)
  | fuel => trivial

theorem sim_bind {α β : Type} (A : List (String × Nat)) (B : List String)
    (X : PRes α) (Y : PRes Unit) (g : PState → α → PRes β) (g' : PState → Unit → PRes Unit)
    (hX : noUV X → Y = mapRes A B X)
    (hg : ∀ p v, X = .ok p v → noUV (g p v) → g' (updVO p A B) () = mapRes A B (g p v))
    (h : noUV (X.bind g)) : Y.bind g' = mapRes A B (X.bind g) := by
  cases X with
  | ok p v =>
      rw [hX trivial, show mapRes A B (PRes.ok p v) = .ok (updVO p A B) () from rfl,
        PRes.bind_ok, PRes.bind_ok]
      exact hg p v rfl (by rwa [PRes.bind_ok] at h)
  | err p e =>
      rw [hX (noUV_err_tr (by rwa [PRes.bind_err] at h))]
      rfl
  | fuel =>
      rw [hX trivial]
      rfl

theorem sim_all : ∀ f : Nat,
    (∀ s A B, noUV (atomF f s) → Rec.atomF f (updVO s A B) = mapRes A B (atomF f s)) ∧
    (∀ w s A B, noUV (atom_tailF f w s) →
      Rec.atom_tailF f (updVO s A B) = mapRes A B (atom_tailF f w s)) ∧
    (∀ s A B, noUV (factorF f s) → Rec.factorF f (updVO s A B) = mapRes A B (factorF f s)) ∧
    (∀ w s A B, noUV (factor_tailF f w s) →
      Rec.factor_tailF f (updVO s A B) = mapRes A B (factor_tailF f w s)) ∧
    (∀ s A B, noUV (termF f s) → Rec.termF f (updVO s A B) = mapRes A B (termF f s)) ∧
    (∀ w s A B, noUV (term_tailF f w s) →
      Rec.term_tailF f (updVO s A B) = mapRes A B (term_tailF f w s)) ∧
    (∀ s A B, noUV (exprF f s) → Rec.exprF f (updVO s A B) = mapRes A B (exprF f s)) ∧
    (∀ s A B, noUV (stmtF f s) → Rec.stmtF f (updVO s A B) = mapRes A B (stmtF f s)) ∧
    (∀ s A B, noUV (stmt_listF f s) →
      Rec.stmt_listF f (updVO s A B) = mapRes A B (stmt_listF f s)) := by
  intro f
  induction f with
  | zero =>
      exact ⟨fun s A B _ => rfl, fun w s A B _ => rfl, fun s A B _ => rfl,
        fun w s A B _ => rfl, fun s A B _ => rfl, fun w s A B _ => rfl,
        fun s A B _ => rfl, fun s A B _ => rfl, fun s A B _ => rfl⟩
  | succ f ih =>
      obtain ⟨ihA, ihAT, ihF, ihFT, ihT, ihTT, ihE, ihS, ihSL⟩ := ih
      have sA : ∀ s A B, noUV (atomF (f+1) s) →
          Rec.atomF (f+1) (updVO s A B) = mapRes A B (atomF (f+1) s) := by
        intro s A B h
        by_cases h1 : s.la = some Kind.klp
        · have hEv : atomF (f+1) s = (pmatch .klp s).bind fun s1 _ =>
              (exprF f s1).bind fun s2 v =>
              (pmatch .krp s2).bind fun s3 _ => .ok s3 v := by
            rw [atomF, atomBody, if_pos h1]
          have hRec : Rec.atomF (f+1) (updVO s A B) = (pmatch .klp (updVO s A B)).bind
              fun s1 _ => (Rec.exprF f s1).bind fun s2 _ => pmatch .krp s2 := by
            rw [Rec.atomF, Rec.atomBody, if_pos (show (updVO s A B).la = some Kind.klp from h1)]
          rw [hEv] at h
          rw [hEv, hRec]
          refine sim_bind A B _ _ _ _ (fun _ => pmatch_upd .klp s A B) ?_ h
          intro p v hp hnu
          refine sim_bind A B _ _ _ _ (fun hn => ihE p A B hn) ?_ hnu
          intro q w hq hnu2
          rw [pmatch_upd .krp q A B]
          cases pmatch .krp q with
          | ok r u => rfl
          | err r e => rfl
          | fuel => rfl
        by_cases h2 : s.la = some Kind.kid
        · have hEv : atomF (f+1) s = (pmatch .kid s).bind fun s1 _ =>
              match lookupVar s1.vars s.val with
              | some v => .ok s1 v
              | none => .err s1 (.parse uvMsg) := by
            rw [atomF, atomBody, if_neg h1, if_pos h2]
          have hRec : Rec.atomF (f+1) (updVO s A B) = pmatch .kid (updVO s A B) := by
            rw [Rec.atomF, Rec.atomBody,
              if_neg (show ¬ ((updVO s A B).la = some Kind.klp) from h1),
              if_pos (show (updVO s A B).la = some Kind.kid from h2)]
          rw [hEv] at h
          rw [hEv, hRec, pmatch_upd .kid s A B]
          cases hpm : pmatch .kid s with
          | fuel => rfl
          | err p e => rfl
          | ok p u =>
              rw [hpm] at h
              simp only [PRes.bind_ok] at h
              cases hl : lookupVar p.vars s.val with
              | some v =>
                  simp only [PRes.bind_ok, hl]
                  rfl
              | none =>
                  rw [hl] at h
                  exact absurd rfl h
        by_cases h3 : s.la = some Kind.kbin
        · have hEv : atomF (f+1) s = (pmatch .kbin s).bind fun s1 _ =>
              .ok s1 (binVal s.val) := by
            rw [atomF, atomBody, if_neg h1, if_neg h2, if_pos h3]
          have hRec : Rec.atomF (f+1) (updVO s A B) = pmatch .kbin (updVO s A B) := by
            rw [Rec.atomF, Rec.atomBody,
              if_neg (show ¬ ((updVO s A B).la = some Kind.klp) from h1),
              if_neg (show ¬ ((updVO s A B).la = some Kind.kid) from h2),
              if_pos (show (updVO s A B).la = some Kind.kbin from h3)]
          rw [hEv, hRec, pmatch_upd .kbin s A B]
          cases pmatch .kbin s with
          | ok r u => rfl
          | err r e => rfl
          | fuel => rfl
        · have hEv : atomF (f+1) s
              = .err s (.parse ("in atom: \"(\", \"id\" or \"bin\" expected")) := by
            rw [atomF, atomBody, if_neg h1, if_neg h2, if_neg h3]
          have hRec : Rec.atomF (f+1) (updVO s A B)
              = .err (updVO s A B) (.parse ("in atom: \"(\", \"id\" or \"bin\" expected")) := by
            rw [Rec.atomF, Rec.atomBody,
              if_neg (show ¬ ((updVO s A B).la = some Kind.klp) from h1),
              if_neg (show ¬ ((updVO s A B).la = some Kind.kid) from h2),
              if_neg (show ¬ ((updVO s A B).la = some Kind.kbin) from h3)]
          rw [hEv, hRec]
          rfl
      have sAT : ∀ w s A B, noUV (atom_tailF (f+1) w s) →
          Rec.atom_tailF (f+1) (updVO s A B) = mapRes A B (atom_tailF (f+1) w s) := by
        intro w s A B h
        by_cases h1 : s.la = some Kind.kand
        · have hEv : atom_tailF (f+1) w s = (pmatch .kand s).bind fun s1 _ =>
              (atomF f s1).bind fun s2 a =>
              (atom_tailF f a s2).bind fun s3 t => .ok s3 (w &&& t) := by
            rw [atom_tailF, atom_tailBody, if_pos h1]
          have hRec : Rec.atom_tailF (f+1) (updVO s A B) = (pmatch .kand (updVO s A B)).bind
              fun s1 _ => (Rec.atomF f s1).bind fun s2 _ => Rec.atom_tailF f s2 := by
            rw [Rec.atom_tailF, Rec.atom_tailBody,
              if_pos (show (updVO s A B).la = some Kind.kand from h1)]
          rw [hEv] at h
          rw [hEv, hRec]
          refine sim_bind A B _ _ _ _ (fun _ => pmatch_upd .kand s A B) ?_ h
          intro p v hp hnu
          refine sim_bind A B _ _ _ _ (fun hn => ihA p A B hn) ?_ hnu
          intro q a hq hnu2
          rw [ihAT a q A B (noUV_bind hnu2)]
          cases atom_tailF f a q with
          | ok r t => rfl
          | err r e => rfl
          | fuel => rfl
        by_cases h2 : s.la = some Kind.krp ∨ s.la = some Kind.kor ∨ s.la = some Kind.kxor ∨
            s.la = some Kind.kid ∨ s.la = some Kind.kprint ∨ s.la = none
        · have hEv : atom_tailF (f+1) w s = .ok s w := by
            rw [atom_tailF, atom_tailBody, if_neg h1, if_pos h2]
          have hRec : Rec.atom_tailF (f+1) (updVO s A B) = .ok (updVO s A B) () := by
            rw [Rec.atom_tailF, Rec.atom_tailBody,
              if_neg (show ¬ ((updVO s A B).la = some Kind.kand) from h1),
              if_pos (show (updVO s A B).la = some Kind.krp ∨
                (updVO s A B).la = some Kind.kor ∨ (updVO s A B).la = some Kind.kxor ∨
                (updVO s A B).la = some Kind.kid ∨ (updVO s A B).la = some Kind.kprint ∨
                (updVO s A B).la = none from h2)]
          rw [hEv, hRec]
          rfl
        · have hEv : atom_tailF (f+1) w s = .err s
              (.parse ("in atom_tail: \"and\", \")\", \"or\", \"xor\", \"id\" or \"print\" expected")) := by
            rw [atom_tailF, atom_tailBody, if_neg h1, if_neg h2]
          have hRec : Rec.atom_tailF (f+1) (updVO s A B) = .err (updVO s A B)
              (.parse ("in atom_tail: \"and\", \")\", \"or\", \"xor\", \"id\" or \"print\" expected")) := by
            rw [Rec.atom_tailF, Rec.atom_tailBody,
              if_neg (show ¬ ((updVO s A B).la = some Kind.kand) from h1),
              if_neg (show ¬ ((updVO s A B).la = some Kind.krp ∨
                (updVO s A B).la = some Kind.kor ∨ (updVO s A B).la = some Kind.kxor ∨
                (updVO s A B).la = some Kind.kid ∨ (updVO s A B).la = some Kind.kprint ∨
                (updVO s A B).la = none) from h2)]
          rw [hEv, hRec]
          rfl
      have sF : ∀ s A B, noUV (factorF (f+1) s) →
          Rec.factorF (f+1) (updVO s A B) = mapRes A B (factorF (f+1) s) := by
        intro s A B h
        by_cases h1 : s.la = some Kind.klp ∨ s.la = some Kind.kid ∨ s.la = some Kind.kbin
        · have hEv : factorF (f+1) s = (atomF f s).bind fun s1 v => atom_tailF f v s1 := by
            rw [factorF, factorBody, if_pos h1]
          have hRec : Rec.factorF (f+1) (updVO s A B) = (Rec.atomF f (updVO s A B)).bind
              fun s1 _ => Rec.atom_tailF f s1 := by
            rw [Rec.factorF, Rec.factorBody,
              if_pos (show (updVO s A B).la = some Kind.klp ∨
                (updVO s A B).la = some Kind.kid ∨
                (updVO s A B).la = some Kind.kbin from h1)]
          rw [hEv] at h
          rw [hEv, hRec]
          refine sim_bind A B _ _ _ _ (fun hn => ihA s A B hn) ?_ h
          intro p v hp hnu
          exact ihAT v p A B hnu
        · have hEv : factorF (f+1) s
              = .err s (.parse ("in factor: \"(\", \"id\" or \"bin\" expected")) := by
            rw [factorF, factorBody, if_neg h1]
          have hRec : Rec.factorF (f+1) (updVO s A B) = .err (updVO s A B)
              (.parse ("in factor: \"(\", \"id\" or \"bin\" expected")) := by
            rw [Rec.factorF, Rec.factorBody,
              if_neg (show ¬ ((updVO s A B).la = some Kind.klp ∨
                (updVO s A B).la = some Kind.kid ∨
                (updVO s A B).la = some Kind.kbin) from h1)]
          rw [hEv, hRec]
          rfl
      have sFT : ∀ w s A B, noUV (factor_tailF (f+1) w s) →
          Rec.factor_tailF (f+1) (updVO s A B) = mapRes A B (factor_tailF (f+1) w s) := by
        intro w s A B h
        by_cases h1 : s.la = some Kind.kor
        · have hEv : factor_tailF (f+1) w s = (pmatch .kor s).bind fun s1 _ =>
              (factorF f s1).bind fun s2 a =>
              (factor_tailF f a s2).bind fun s3 t => .ok s3 (w ||| t) := by
            rw [factor_tailF, factor_tailBody, if_pos h1]
          have hRec : Rec.factor_tailF (f+1) (updVO s A B) = (pmatch .kor (updVO s A B)).bind
              fun s1 _ => (Rec.factorF f s1).bind fun s2 _ => Rec.factor_tailF f s2 := by
            rw [Rec.factor_tailF, Rec.factor_tailBody,
              if_pos (show (updVO s A B).la = some Kind.kor from h1)]
          rw [hEv] at h
          rw [hEv, hRec]
          refine sim_bind A B _ _ _ _ (fun _ => pmatch_upd .kor s A B) ?_ h
          intro p v hp hnu
          refine sim_bind A B _ _ _ _ (fun hn => ihF p A B hn) ?_ hnu
          intro q a hq hnu2
          rw [ihFT a q A B (noUV_bind hnu2)]
          cases factor_tailF f a q with
          | ok r t => rfl
          | err r e => rfl
          | fuel => rfl
        by_cases h2 : s.la = some Kind.krp ∨ s.la = some Kind.kxor ∨
            s.la = some Kind.kid ∨ s.la = some Kind.kprint ∨ s.la = none
        · have hEv : factor_tailF (f+1) w s = .ok s w := by
            rw [factor_tailF, factor_tailBody, if_neg h1, if_pos h2]
          have hRec : Rec.factor_tailF (f+1) (updVO s A B) = .ok (updVO s A B) () := by
            rw [Rec.factor_tailF, Rec.factor_tailBody,
              if_neg (show ¬ ((updVO s A B).la = some Kind.kor) from h1),
              if_pos (show (updVO s A B).la = some Kind.krp ∨
                (updVO s A B).la = some Kind.kxor ∨ (updVO s A B).la = some Kind.kid ∨
                (updVO s A B).la = some Kind.kprint ∨ (updVO s A B).la = none from h2)]
          rw [hEv, hRec]
          rfl
        · have hEv : factor_tailF (f+1) w s = .err s
              (.parse ("in term_tail: \"or\", \")\", \"xor\", \"id\" or \"print\" expected")) := by
            rw [factor_tailF, factor_tailBody, if_neg h1, if_neg h2]
          have hRec : Rec.factor_tailF (f+1) (updVO s A B) = .err (updVO s A B)
              (.parse ("in term_tail: \"or\", \")\", \"xor\", \"id\" or \"print\" expected")) := by
            rw [Rec.factor_tailF, Rec.factor_tailBody,
              if_neg (show ¬ ((updVO s A B).la = some Kind.kor) from h1),
              if_neg (show ¬ ((updVO s A B).la = some Kind.krp ∨
                (updVO s A B).la = some Kind.kxor ∨ (updVO s A B).la = some Kind.kid ∨
                (updVO s A B).la = some Kind.kprint ∨ (updVO s A B).la = none) from h2)]
          rw [hEv, hRec]
          rfl
      have sT : ∀ s A B, noUV (termF (f+1) s) →
          Rec.termF (f+1) (updVO s A B) = mapRes A B (termF (f+1) s) := by
        intro s A B h
        by_cases h1 : s.la = some Kind.klp ∨ s.la = some Kind.kid ∨ s.la = some Kind.kbin
        · have hEv : termF (f+1) s = (factorF f s).bind fun s1 v => factor_tailF f v s1 := by
            rw [termF, termBody, if_pos h1]
          have hRec : Rec.termF (f+1) (updVO s A B) = (Rec.factorF f (updVO s A B)).bind
              fun s1 _ => Rec.factor_tailF f s1 := by
            rw [Rec.termF, Rec.termBody,
              if_pos (show (updVO s A B).la = some Kind.klp ∨
                (updVO s A B).la = some Kind.kid ∨
                (updVO s A B).la = some Kind.kbin from h1)]
          rw [hEv] at h
          rw [hEv, hRec]
          refine sim_bind A B _ _ _ _ (fun hn => ihF s A B hn) ?_ h
          intro p v hp hnu
          exact ihFT v p A B hnu
        · have hEv : termF (f+1) s
              = .err s (.parse ("in term: \"(\", \"id\" or \"bin\" expected")) := by
            rw [termF, termBody, if_neg h1]
          have hRec : Rec.termF (f+1) (updVO s A B) = .err (updVO s A B)
              (.parse ("in term: \"(\", \"id\" or \"bin\" expected")) := by
            rw [Rec.termF, Rec.termBody,
              if_neg (show ¬ ((updVO s A B).la = some Kind.klp ∨
                (updVO s A B).la = some Kind.kid ∨
                (updVO s A B).la = some Kind.kbin) from h1)]
          rw [hEv, hRec]
          rfl
      have sTT : ∀ w s A B, noUV (term_tailF (f+1) w s) →
          Rec.term_tailF (f+1) (updVO s A B) = mapRes A B (term_tailF (f+1) w s) := by
        intro w s A B h
        by_cases h1 : s.la = some Kind.kxor
        · have hEv : term_tailF (f+1) w s = (pmatch .kxor s).bind fun s1 _ =>
              (termF f s1).bind fun s2 a =>
              (term_tailF f a s2).bind fun s3 t => .ok s3 (w ^^^ t) := by
            rw [term_tailF, term_tailBody, if_pos h1]
          have hRec : Rec.term_tailF (f+1) (updVO s A B) = (pmatch .kxor (updVO s A B)).bind
              fun s1 _ => (Rec.termF f s1).bind fun s2 _ => Rec.term_tailF f s2 := by
            rw [Rec.term_tailF, Rec.term_tailBody,
              if_pos (show (updVO s A B).la = some Kind.kxor from h1)]
          rw [hEv] at h
          rw [hEv, hRec]
          refine sim_bind A B _ _ _ _ (fun _ => pmatch_upd .kxor s A B) ?_ h
          intro p v hp hnu
          refine sim_bind A B _ _ _ _ (fun hn => ihT p A B hn) ?_ hnu
          intro q a hq hnu2
          rw [ihTT a q A B (noUV_bind hnu2)]
          cases term_tailF f a q with
          | ok r t => rfl
          | err r e => rfl
          | fuel => rfl
        by_cases h2 : s.la = some Kind.krp ∨ s.la = some Kind.kid ∨
            s.la = some Kind.kprint ∨ s.la = none
        · have hEv : term_tailF (f+1) w s = .ok s w := by
            rw [term_tailF, term_tailBody, if_neg h1, if_pos h2]
          have hRec : Rec.term_tailF (f+1) (updVO s A B) = .ok (updVO s A B) () := by
            rw [Rec.term_tailF, Rec.term_tailBody,
              if_neg (show ¬ ((updVO s A B).la = some Kind.kxor) from h1),
              if_pos (show (updVO s A B).la = some Kind.krp ∨
                (updVO s A B).la = some Kind.kid ∨ (updVO s A B).la = some Kind.kprint ∨
                (updVO s A B).la = none from h2)]
          rw [hEv, hRec]
          rfl
        · have hEv : term_tailF (f+1) w s = .err s
              (.parse ("in term_tail: \"xor\", \")\", \"id\" or \"print\" expected")) := by
            rw [term_tailF, term_tailBody, if_neg h1, if_neg h2]
          have hRec : Rec.term_tailF (f+1) (updVO s A B) = .err (updVO s A B)
              (.parse ("in term_tail: \"xor\", \")\", \"id\" or \"print\" expected")) := by
            rw [Rec.term_tailF, Rec.term_tailBody,
              if_neg (show ¬ ((updVO s A B).la = some Kind.kxor) from h1),
              if_neg (show ¬ ((updVO s A B).la = some Kind.krp ∨
                (updVO s A B).la = some Kind.kid ∨ (updVO s A B).la = some Kind.kprint ∨
                (updVO s A B).la = none) from h2)]
          rw [hEv, hRec]
          rfl
      have sE : ∀ s A B, noUV (exprF (f+1) s) →
          Rec.exprF (f+1) (updVO s A B) = mapRes A B (exprF (f+1) s) := by
        intro s A B h
        by_cases h1 : s.la = some Kind.klp ∨ s.la = some Kind.kid ∨ s.la = some Kind.kbin
        · have hEv : exprF (f+1) s = (termF f s).bind fun s1 v => term_tailF f v s1 := by
            rw [exprF, exprBody, if_pos h1]
          have hRec : Rec.exprF (f+1) (updVO s A B) = (Rec.termF f (updVO s A B)).bind
              fun s1 _ => Rec.term_tailF f s1 := by
            rw [Rec.exprF, Rec.exprBody,
              if_pos (show (updVO s A B).la = some Kind.klp ∨
                (updVO s A B).la = some Kind.kid ∨
                (updVO s A B).la = some Kind.kbin from h1)]
          rw [hEv] at h
          rw [hEv, hRec]
          refine sim_bind A B _ _ _ _ (fun hn => ihT s A B hn) ?_ h
          intro p v hp hnu
          exact ihTT v p A B hnu
        · have hEv : exprF (f+1) s
              = .err s (.parse ("in expr: \"(\", \"id\" or \"bin\" expected")) := by
            rw [exprF, exprBody, if_neg h1]
          have hRec : Rec.exprF (f+1) (updVO s A B) = .err (updVO s A B)
              (.parse ("in expr: \"(\", \"id\" or \"bin\" expected")) := by
            rw [Rec.exprF, Rec.exprBody,
              if_neg (show ¬ ((updVO s A B).la = some Kind.klp ∨
                (updVO s A B).la = some Kind.kid ∨
                (updVO s A B).la = some Kind.kbin) from h1)]
          rw [hEv, hRec]
          rfl
      have sS : ∀ s A B, noUV (stmtF (f+1) s) →
          Rec.stmtF (f+1) (updVO s A B) = mapRes A B (stmtF (f+1) s) := by
        intro s A B h
        by_cases h1 : s.la = some Kind.kid
        · have hEv : stmtF (f+1) s = (pmatch .kid s).bind fun s1 _ =>
              (pmatch .keq s1).bind fun s2 _ =>
              (exprF f s2).bind fun s3 v =>
              .ok { s3 with vars := setVar s3.vars s.val v } () := by
            rw [stmtF, stmtBody, if_pos h1]
          have hRec : Rec.stmtF (f+1) (updVO s A B) = (pmatch .kid (updVO s A B)).bind
              fun s1 _ => (pmatch .keq s1).bind fun s2 _ =>
              (Rec.exprF f s2).bind fun s3 _ => .ok s3 () := by
            rw [Rec.stmtF, Rec.stmtBody,
              if_pos (show (updVO s A B).la = some Kind.kid from h1)]
          rw [hEv] at h
          rw [hEv, hRec]
          refine sim_bind A B _ _ _ _ (fun _ => pmatch_upd .kid s A B) ?_ h
          intro p v hp hnu
          refine sim_bind A B _ _ _ _ (fun _ => pmatch_upd .keq p A B) ?_ hnu
          intro q u hq hnu2
          refine sim_bind A B _ _ _ _ (fun hn => ihE q A B hn) ?_ hnu2
          intro r w hr hnu3
          rfl
        by_cases h2 : s.la = some Kind.kprint
        · have hEv : stmtF (f+1) s = (pmatch .kprint s).bind fun s1 _ =>
              (exprF f s1).bind fun s2 v =>
              .ok { s2 with out := s2.out ++ [natToBin v] } () := by
            rw [stmtF, stmtBody, if_neg h1, if_pos h2]
          have hRec : Rec.stmtF (f+1) (updVO s A B) = (pmatch .kprint (updVO s A B)).bind
              fun s1 _ => (Rec.exprF f s1).bind fun s2 _ => .ok s2 () := by
            rw [Rec.stmtF, Rec.stmtBody,
              if_neg (show ¬ ((updVO s A B).la = some Kind.kid) from h1),
              if_pos (show (updVO s A B).la = some Kind.kprint from h2)]
          rw [hEv] at h
          rw [hEv, hRec]
          refine sim_bind A B _ _ _ _ (fun _ => pmatch_upd .kprint s A B) ?_ h
          intro p v hp hnu
          refine sim_bind A B _ _ _ _ (fun hn => ihE p A B hn) ?_ hnu
          intro q w hq hnu2
          rfl
        · have hEv : stmtF (f+1) s
              = .err s (.parse ("in stmt: \"id\" or \"print\" expected")) := by
            rw [stmtF, stmtBody, if_neg h1, if_neg h2]
          have hRec : Rec.stmtF (f+1) (updVO s A B) = .err (updVO s A B)
              (.parse ("in stmt: \"id\" or \"print\" expected")) := by
            rw [Rec.stmtF, Rec.stmtBody,
              if_neg (show ¬ ((updVO s A B).la = some Kind.kid) from h1),
              if_neg (show ¬ ((updVO s A B).la = some Kind.kprint) from h2)]
          rw [hEv, hRec]
          rfl
      have sSL : ∀ s A B, noUV (stmt_listF (f+1) s) →
          Rec.stmt_listF (f+1) (updVO s A B) = mapRes A B (stmt_listF (f+1) s) := by
        intro s A B h
        by_cases h1 : s.la = some Kind.kid ∨ s.la = some Kind.kprint
        · have hEv : stmt_listF (f+1) s = (stmtF f s).bind fun s1 _ =>
              stmt_listF f s1 := by
            rw [stmt_listF, stmt_listBody, if_pos h1]
          have hRec : Rec.stmt_listF (f+1) (updVO s A B) = (Rec.stmtF f (updVO s A B)).bind
              fun s1 _ => Rec.stmt_listF f s1 := by
            rw [Rec.stmt_listF, Rec.stmt_listBody,
              if_pos (show (updVO s A B).la = some Kind.kid ∨
                (updVO s A B).la = some Kind.kprint from h1)]
          rw [hEv] at h
          rw [hEv, hRec]
          refine sim_bind A B _ _ _ _ (fun hn => ihS s A B hn) ?_ h
          intro p v hp hnu
          exact ihSL p A B hnu
        rw [show Rec.stmt_listF (f+1) (updVO s A B)
            = Rec.stmt_listBody (Rec.stmtF f) (Rec.stmt_listF f) (updVO s A B) from
          by rw [Rec.stmt_listF]]
        rw [show stmt_listF (f+1) s = stmt_listBody (stmtF f) (stmt_listF f) s from
          by rw [stmt_listF]]
        rw [stmt_listBody, Rec.stmt_listBody,
          if_neg (show ¬ ((updVO s A B).la = some Kind.kid ∨
            (updVO s A B).la = some Kind.kprint) from h1),
          if_neg h1]
        by_cases h2 : s.la = none
        · rw [if_pos (show (updVO s A B).la = none from h2), if_pos h2]
          rfl
        · rw [if_neg (show ¬ ((updVO s A B).la = none) from h2), if_neg h2]
          rfl
      exact ⟨sA, sAT, sF, sFT, sT, sTT, sE, sS, sSL⟩

/-- Claim C1 (amended): the recognizing variant (`scanner.py`) simulates the
evaluating variant (`runner.py`) on every input except exactly at the
undefined-variable check, which only the evaluator performs: if the
evaluating run completes, the recognizing run completes consuming the same
tokens, and if the evaluating run raises any error other than the
undefined-variable `ParseError`, the recognizing run raises the identical
error in the identical state.  (On a program whose evaluation reaches an
undefined identifier the two variants differ — see the counterexample.) -/
theorem claim_C1_recognizer_simulates (f : Nat) (q : TokSeq) :
    (∀ s v, parseF f q = .ok s v → Rec.parseF f q = .ok (updVO s [] []) ()) ∧
    (∀ s e, parseF f q = .err s e → e ≠ .parse uvMsg →
      Rec.parseF f q = .err (updVO s [] []) e) := by
  have hstart : ∀ s1 (u : Unit), nextToken (initState q) = .ok s1 u → updVO s1 [] [] = s1 := by
    intro s1 u hn
    have hp := presVO_okk_out (presVO_nextToken (initState q)) hn
    rcases s1 with ⟨la, val, ts, vars, out, line, col⟩
    have hv : vars = [] := hp.1
    have ho : out = [] := hp.2
    rw [updVO, hv, ho]
  have hstartE : ∀ s1 e, nextToken (initState q) = .err s1 e → updVO s1 [] [] = s1 := by
    intro s1 e hn
    have hp := presVO_err_out (presVO_nextToken (initState q)) hn
    rcases s1 with ⟨la, val, ts, vars, out, line, col⟩
    have hv : vars = [] := hp.1
    have ho : out = [] := hp.2
    rw [updVO, hv, ho]
  constructor
  · intro s v h
    rw [parseF] at h
    rw [Rec.parseF]
    cases hn : nextToken (initState q) with
    | fuel =>
        rw [hn] at h
        exact absurd h (by simp [PRes.bind])
    | err p0 e0 =>
        rw [hn, PRes.bind_err] at h
        exact absurd h (by simp)
    | ok s1 u1 =>
        rw [hn, PRes.bind_ok] at h
        rw [PRes.bind_ok]
        have hs := (sim_all f).2.2.2.2.2.2.2.2 s1 ([]) ([]) (by rw [h]; trivial)
        rw [hstart s1 u1 hn] at hs
        rw [hs, h]
        rfl
  · intro s e h hne
    have hnu : ∀ X : PRes Unit, X = .err s e → noUV X := by
      intro X hX
      rw [hX]
      cases e with
      | scan => trivial
      | parse m =>
          intro hm
          exact hne (by rw [hm])
    rw [parseF] at h
    rw [Rec.parseF]
    cases hn : nextToken (initState q) with
    | fuel =>
        rw [hn] at h
        exact absurd h (by simp [PRes.bind])
    | err p0 e0 =>
        rw [hn, PRes.bind_err] at h
        injection h with hA hB
        subst hA
        subst hB
        rw [PRes.bind_err, hstartE p0 e0 hn]
    | ok s1 u1 =>
        rw [hn, PRes.bind_ok] at h
        rw [PRes.bind_ok]
        have hs := (sim_all f).2.2.2.2.2.2.2.2 s1 ([]) ([]) (hnu _ h)
        rw [hstart s1 u1 hn] at hs
        rw [hs, h]
        rfl

/-- Claim C1 (counterexample): on the program `print y` — an identifier never
assigned — the recognizing variant accepts while the evaluating variant
raises the undefined-variable error, so the two variants do not accept and
reject exactly the same inputs, and in particular do not treat an identifier
with no prior assignment the same way. -/
theorem claim_C1_counterexample :
    Rec.parseF 10 (strm [tk .kprint ("print"), tk .kid ("y")])
      = .ok (PState.mk none ("") [] [] [] 0 0) () ∧
    parseF 10 (strm [tk .kprint ("print"), tk .kid ("y")])
      = .err (PState.mk none ("") [] [] [] 0 0) (.parse uvMsg) :=
  ⟨rfl, rfl⟩

theorem claim_C1_witness :
    Rec.parseF 10 (strm [tk .kprint ("print"), tk .kbin ("1")])
      = .ok (updVO (PState.mk none ("") [] [] [("1")] 0 0) [] []) () :=
  (claim_C1_recognizer_simulates 10 (strm [tk .kprint ("print"), tk .kbin ("1")])).1
    (PState.mk none ("") [] [] [("1")] 0 0) () (by decide)

theorem claim_C2_witness :
    stmt_listF 20
        (cf (tk .kid ("a") :: tk .keq ("=")
            :: (rendE (.lit ("1")) ++ [tk .kprint ("print"), tk .kid ("a")])) [] [])
      = .ok (cf [] (setVar [] ("a") 1) ([] ++ [natToBin 1])) () ∧
    stmt_listF 20 (cf (tk .kprint ("print") :: rendE (.lit ("1"))) [] [])
      = .ok (cf [] [] ([] ++ [natToBin 1])) () :=
  claim_C2_assign_print ("a") (.lit ("1")) [] 1 [] 20 (by decide) (by decide)

theorem claim_C4_witness :
    run 10 (strm (tk .kprint ("print") :: tk .kbin ("1") :: chainT .kand ("and") [("0")]))
      = some [natToBin ([("0")].foldl (fun acc y => acc &&& binVal y) (binVal ("1")))] :=
  claim_C4_assoc_comm_fold.2.2.2.1 ("1") [("0")] 10 (by decide)

theorem claim_C5_witness :
    run 10 (strm [tk .kprint ("print"), tk .kbin ("0101")])
      = some [natToBin (binVal ("0101"))] ∧
    (natToBin (binVal ("0101"))).data ≠ [] ∧
    (∀ c ∈ (natToBin (binVal ("0101"))).data, c = '0' ∨ c = '1') ∧
    binVal (natToBin (binVal ("0101"))) = binVal ("0101") ∧
    (binVal ("0101") = 0 → natToBin (binVal ("0101")) = ("0")) ∧
    (binVal ("0101") ≠ 0 → (natToBin (binVal ("0101"))).data.head? = some '1') :=
  claim_C5_print_literal ("0101") (by decide)

theorem claim_C6_witness :
    stmt_listF 10 (cf [tk .kprint ("print"), tk .kid ("y")] [] [])
      = .err (cf [] [] []) (.parse uvMsg) ∧
    (cf ([] : List Token) [] []).out = [] :=
  claim_C6_undefined_variable ("y") [] [] 10 rfl (by decide)

theorem claim_C8_witness :
    (cf ([] : List Token) [] []).vars = (cf [tk .kid ("x"), tk .keq ("=")] [] []).vars ∧
    (cf ([] : List Token) [] []).out = (cf [tk .kid ("x"), tk .keq ("=")] [] []).out :=
  claim_C8_no_rollback.1 5 (cf [tk .kid ("x"), tk .keq ("=")] [] []) (cf [] [] [])
    (.parse ("in expr: \"(\", \"id\" or \"bin\" expected")) (by decide)

theorem claim_C9_witness :
    (∀ y ∈ (PState.mk none ("") [] [] [] 0 0).out, ∃ v, y = natToBin v) ∧
    (Err.parse ("found None instead of =") = Err.scan →
      run 10 (strm [tk .kid ("x")])
        = some ((PState.mk none ("") [] [] [] 0 0).out
            ++ [("Scanner Error: at line ") ++ toString (PState.mk none ("") [] [] [] 0 0).line
              ++ (" char ") ++ toString ((PState.mk none ("") [] [] [] 0 0).col + 1)])) ∧
    (∀ m, Err.parse ("found None instead of =") = Err.parse m →
      run 10 (strm [tk .kid ("x")])
        = some ((PState.mk none ("") [] [] [] 0 0).out
            ++ [("Parser Error: ") ++ m ++ (" at line ")
              ++ toString (PState.mk none ("") [] [] [] 0 0).line
              ++ (" char ") ++ toString ((PState.mk none ("") [] [] [] 0 0).col + 1)])) :=
  claim_C9_single_diagnostic 10 (strm [tk .kid ("x")])
    (PState.mk none ("") [] [] [] 0 0) (.parse ("found None instead of =")) (by decide)

theorem claim_C10_witness :
    pmatch .kid (PState.mk (some Kind.kprint) ("print") [] [] [] 1 0)
      = .err (PState.mk (some Kind.kprint) ("print") [] [] [] 1 0)
          (.parse (("found ")
            ++ laStr (PState.mk (some Kind.kprint) ("print") [] [] [] 1 0).la
            ++ (" instead of ") ++ kindStr .kid)) :=
  claim_C10_match_mismatch .kid (PState.mk (some Kind.kprint) ("print") [] [] [] 1 0)
    (by decide)
